import Mathlib

/-!
Verification development for the astrbot reminder plugin
(`core/tools.py`, `core/scheduler.py`, `core/utils.py`, `core/database.py`).

Python strings are embedded as lists of characters (`Str`), and the exact
string manipulations of the source (`split`, `rsplit`, `in`, `startswith`)
are reproduced on that representation.
-/

/-- Embedded Python string: a list of characters. -/
abbrev Str := List Char

/-- Converts a Lean string literal to the embedded representation. -/
def strL (s : String) : Str := s.data

/-- Python `needle in haystack` helper: does `s` begin with `pat`
(Python `str.startswith`)? -/
def beginsWith : Str → Str → Bool
  | [], _ => true
  | _ :: _, [] => false
  | a :: as, b :: bs => a = b && beginsWith as bs

/-- Python substring test `pat in s`. -/
def containsSeq (pat : Str) : Str → Bool
  | [] => pat.isEmpty
  | c :: rest => beginsWith pat (c :: rest) || containsSeq pat rest

/-- Python `s.split(c)` for a one-character separator: splits on every
occurrence, keeping empty chunks. -/
def splitOnC (c : Char) : Str → List Str
  | [] => [[]]
  | a :: s =>
    if a = c then [] :: splitOnC c s
    else
      match splitOnC c s with
      | [] => [[a]]
      | t :: ts => (a :: t) :: ts

/-- Joins chunks with a one-character separator (inverse of `splitOnC`). -/
def interC (c : Char) : List Str → Str
  | [] => []
  | [t] => t
  | t :: ts => t ++ c :: interC c ts

/-- Python `s.rsplit(c, 1)`: splits on the last occurrence of `c`,
returning `[s]` when `c` does not occur. -/
def rsplit1 (c : Char) (s : Str) : List Str :=
  let parts := splitOnC c s
  if parts.length ≤ 1 then [s]
  else [interC c parts.dropLast, parts.getLastD []]

/-- Python `s.split(c, 2)`: at most two splits, on the first occurrences. -/
def splitN2 (c : Char) (s : Str) : List Str :=
  let parts := splitOnC c s
  if parts.length ≤ 3 then parts
  else [parts.headD [], (parts.drop 1).headD [], interC c (parts.drop 2)]

/-- Fuel-driven worker for Python `s.split(pat)` with a multi-character
separator. -/
def splitSeqGo (pat : Str) : Nat → Str → List Str
  | 0, s => [s]
  | fuel + 1, s =>
    if pat ≠ [] && beginsWith pat s then
      [] :: splitSeqGo pat fuel (s.drop pat.length)
    else
      match s with
      | [] => [[]]
      | c :: rest =>
        match splitSeqGo pat fuel rest with
        | [] => [[c]]
        | t :: ts => (c :: t) :: ts

/-- Python `s.split(pat)` for a multi-character separator. -/
def splitSeq (pat s : Str) : List Str :=
  splitSeqGo pat (s.length + 1) s

/-- The literal `"@chatroom"` marker. -/
def chatroomMark : Str := strL "@chatroom"

/-- The literal `":GroupMessage:"` marker. -/
def groupMark : Str := strL ":GroupMessage:"

/-- The literal `":ChannelMessage:"` marker. -/
def channelMark : Str := strL ":ChannelMessage:"

/-- The literal `":PrivateMessage:"` marker. -/
def privateMark : Str := strL ":PrivateMessage:"

/-- The wechat-family platform names of `ReminderScheduler.wechat_platforms`
(`core/scheduler.py`). -/
def wechatPlatforms : List Str := [strL "gewechat", strL "wechatpadpro", strL "wecom"]

/-- Embedding of `ReminderTools.get_session_id` (`core/tools.py` lines 23-57):
derives the isolated session id from a raw chat-origin id and the creator id.
`creatorId = none` models Python `None`; the empty string is falsy as well. -/
def get_session_id (uniqueSession : Bool) (msgOrigin : Str) (creatorId : Option Str) : Str :=
  if !uniqueSession then msgOrigin
  else
    match creatorId with
    | none => msgOrigin
    | some c =>
      if c = [] then msgOrigin
      else if containsSeq groupMark msgOrigin || containsSeq chatroomMark msgOrigin ||
              containsSeq channelMark msgOrigin then
        match rsplit1 ':' msgOrigin with
        | [p, l] => p ++ ':' :: l ++ '_' :: c
        | _ => msgOrigin
      else if containsSeq privateMark msgOrigin then
        match rsplit1 ':' msgOrigin with
        | [p, l] => p ++ ':' :: l ++ '_' :: c
        | _ => msgOrigin
      else msgOrigin ++ '_' :: c

/-- Worker for the `@chatroom` block of
`ReminderScheduler.get_original_session_id` (`core/scheduler.py` lines
1064-1085). `none` means the Python code fell through the block without
returning. -/
def gosChatroom (sid : Str) : Option Str :=
  if containsSeq chatroomMark sid then
    let pfx : Str :=
      match splitN2 ':' sid with
      | p0 :: p1 :: _ => p0 ++ ':' :: p1 ++ [':']
      | _ => []
    match splitSeq chatroomMark sid with
    | [a, b] =>
      if beginsWith (strL "_") b then
        some (pfx ++ (splitOnC ':' a).getLastD [] ++ chatroomMark)
      else some sid
    | _ => none
  else none

/-- Worker for the wechat branch of `get_original_session_id`
(`core/scheduler.py` lines 1090-1107). -/
def gosWechat (sid : Str) : Str :=
  if containsSeq (strL "@chatroom_") sid then sid
  else if containsSeq groupMark sid &&
          ((splitOnC ':' sid).getLastD []).contains '_' then
    match splitOnC ':' sid with
    | p0 :: p1 :: _ :: _ =>
      match rsplit1 '_' ((splitOnC ':' sid).getLastD []) with
      | [g, _u] => p0 ++ ':' :: p1 ++ ':' :: g
      | _ => sid
    | _ => sid
  else sid

/-- Worker for the generic (non-wechat) branch of `get_original_session_id`
(`core/scheduler.py` lines 1109-1114). -/
def gosGeneric (sid : Str) : Str :=
  match rsplit1 ':' sid with
  | [p, l] =>
    if l.contains '_' then
      match rsplit1 '_' l with
      | [g, _u] => p ++ ':' :: g
      | _ => sid
    else sid
  | _ => sid

/-- Embedding of `ReminderScheduler.get_original_session_id`
(`core/scheduler.py` lines 1056-1117): recovers the raw session id from an
isolated one. -/
def get_original_session_id (sid : Str) : Str :=
  match gosChatroom sid with
  | some r => r
  | none =>
    if sid.contains '_' && sid.contains ':' then
      if wechatPlatforms.any (fun p => beginsWith p sid) then gosWechat sid
      else gosGeneric sid
    else sid

/-! Datetime model.  Python `datetime` values are embedded as a whole-day
count plus seconds within the day; the civil (year, month, day) view is
converted through `daysFromCivil`. -/

/-- Linear datetime: whole days since the proleptic Gregorian date
0000-03-01, plus seconds within the day.  Python `weekday()` is
`(day + 2) % 7` (Monday = 0) under this day numbering. -/
structure DT where
  day : Nat
  sec : Nat
deriving DecidableEq

/-- Total seconds, the order used by Python `datetime` comparisons. -/
def DT.toSec (t : DT) : Nat := t.day * 86400 + t.sec

/-- Gregorian leap-year rule. -/
def isLeap (y : Nat) : Bool := y % 4 = 0 && (y % 100 ≠ 0 || y % 400 = 0)

/-- Number of days of month `m` in year `y`. -/
def daysInMonth (y m : Nat) : Nat :=
  if m = 2 then (if isLeap y then 29 else 28)
  else if m = 4 || m = 6 || m = 9 || m = 11 then 30
  else 31

/-- Day count of the civil date `y-m-d` since 0000-03-01 (for `y ≥ 1`). -/
def daysFromCivil (y m d : Nat) : Nat :=
  let y2 := if m ≤ 2 then y - 1 else y
  let era := y2 / 400
  let yoe := y2 % 400
  let mp := (m + 9) % 12
  let doy := (153 * mp + 2) / 5 + (d - 1)
  let doe := yoe * 365 + yoe / 4 - yoe / 100 + doy
  era * 146097 + doe

/-- Python `date(y, m, d).weekday()` (Monday = 0). -/
def weekdayOf (y m d : Nat) : Nat := (daysFromCivil y m d + 2) % 7

/-- Datetime from civil components at second resolution. -/
def dtOfCivil (y mo d h mi : Nat) : DT := ⟨daysFromCivil y mo d, h * 3600 + mi * 60⟩

/-- ASCII digit test (Python `str.isdigit` on the characters involved). -/
def isDigitChar (c : Char) : Bool := c.isDigit

/-- Numeric value of a digit character. -/
def digitVal (c : Char) : Nat := c.toNat - 48

/-- The digit character for `k < 10`. -/
def dChar (k : Nat) : Char := Char.ofNat (48 + k)

/-- Two-digit zero-padded decimal rendering (for values below 100). -/
def digit2 (n : Nat) : Str := [dChar (n / 10), dChar (n % 10)]

/-- Four-digit zero-padded decimal rendering (for values below 10000). -/
def digit4 (n : Nat) : Str :=
  [dChar (n / 1000), dChar (n / 100 % 10), dChar (n / 10 % 10), dChar (n % 10)]

/-- Python `dt.strftime("%Y-%m-%d %H:%M")`. -/
def fmtYmdHm (y mo d h mi : Nat) : Str :=
  digit4 y ++ '-' :: (digit2 mo ++ '-' :: (digit2 d ++ ' ' :: (digit2 h ++ ':' :: digit2 mi)))

/-- Python `dt.strftime("%Y-%m-%d %H:%M:%S")`. -/
def fmtYmdHms (y mo d h mi sc : Nat) : Str :=
  digit4 y ++ '-' :: (digit2 mo ++ '-' :: (digit2 d ++ ' ' ::
    (digit2 h ++ ':' :: (digit2 mi ++ ':' :: digit2 sc))))

/-- Python `datetime.strptime(s, "%Y-%m-%d %H:%M")` on the fixed-width shape
produced by `strftime` (the only shape the plugin ever stores), with the
calendar validation strptime performs.  `none` models `ValueError`. -/
def parseYmdHm : Str → Option (Nat × Nat × Nat × Nat × Nat)
  | [y1, y2, y3, y4, '-', a1, a2, '-', b1, b2, ' ', h1, h2, ':', m1, m2] =>
    if isDigitChar y1 && isDigitChar y2 && isDigitChar y3 && isDigitChar y4 &&
       isDigitChar a1 && isDigitChar a2 && isDigitChar b1 && isDigitChar b2 &&
       isDigitChar h1 && isDigitChar h2 && isDigitChar m1 && isDigitChar m2 then
      let y := 1000 * digitVal y1 + 100 * digitVal y2 + 10 * digitVal y3 + digitVal y4
      let mo := 10 * digitVal a1 + digitVal a2
      let d := 10 * digitVal b1 + digitVal b2
      let h := 10 * digitVal h1 + digitVal h2
      let mi := 10 * digitVal m1 + digitVal m2
      if 1 ≤ y && 1 ≤ mo && mo ≤ 12 && 1 ≤ d && d ≤ daysInMonth y mo &&
         h ≤ 23 && mi ≤ 59 then
        some (y, mo, d, h, mi)
      else none
    else none
  | _ => none

/-- Python `datetime.strptime(s, "%Y-%m-%d %H:%M:%S")` on the fixed-width
shape, seconds included. -/
def parseYmdHms : Str → Option (Nat × Nat × Nat × Nat × Nat × Nat)
  | [y1, y2, y3, y4, '-', a1, a2, '-', b1, b2, ' ', h1, h2, ':', m1, m2, ':', s1, s2] =>
    if isDigitChar y1 && isDigitChar y2 && isDigitChar y3 && isDigitChar y4 &&
       isDigitChar a1 && isDigitChar a2 && isDigitChar b1 && isDigitChar b2 &&
       isDigitChar h1 && isDigitChar h2 && isDigitChar m1 && isDigitChar m2 &&
       isDigitChar s1 && isDigitChar s2 then
      let y := 1000 * digitVal y1 + 100 * digitVal y2 + 10 * digitVal y3 + digitVal y4
      let mo := 10 * digitVal a1 + digitVal a2
      let d := 10 * digitVal b1 + digitVal b2
      let h := 10 * digitVal h1 + digitVal h2
      let mi := 10 * digitVal m1 + digitVal m2
      let sc := 10 * digitVal s1 + digitVal s2
      if 1 ≤ y && 1 ≤ mo && mo ≤ 12 && 1 ≤ d && d ≤ daysInMonth y mo &&
         h ≤ 23 && mi ≤ 59 && sc ≤ 61 then
        some (y, mo, d, h, mi, sc)
      else none
    else none
  | _ => none

/-- Whitespace test for Python `str.strip` and the regex `\s`. -/
def isWsChar (c : Char) : Bool :=
  c = ' ' || c = '\t' || c = '\n' || c = '\r' || c = Char.ofNat 11 || c = Char.ofNat 12

/-- Python `s.strip()`. -/
def stripWs (s : Str) : Str := ((s.dropWhile isWsChar).reverse.dropWhile isWsChar).reverse

/-- The five am/pm markers of the time regex in `parse_datetime`
(`core/utils.py` lines 68-72). -/
def amPmMarks : List Str := [strL "早上", strL "上午", strL "下午", strL "晚上", strL "凌晨"]

/-- Finds the marker the input starts with, returning it and the rest. -/
def findMark : List Str → Str → Option (Str × Str)
  | [], _ => none
  | p :: ps, s => if beginsWith p s then some (p, s.drop p.length) else findMark ps s

/-- The minute separators `[:：点]` of the time regex. -/
def sepChar (c : Char) : Bool := c = ':' || c = '：' || c = '点'

/-- Is the string all whitespace (so that `\s*$` accepts it)? -/
def onlyWs (s : Str) : Bool := s.all isWsChar

/-- Matches `\s*(?:[:：点]\s*(\d;{1,2})?)?\s*$` after the hour digits,
returning the minute value (0 when absent), greedily with backtracking as
the regex engine would. -/
def parseAfterHour (s : Str) : Option Nat :=
  match s.dropWhile isWsChar with
  | [] => some 0
  | c :: rest =>
    if sepChar c then
      match rest.dropWhile isWsChar with
      | [] => some 0
      | m1 :: rest2 =>
        if isDigitChar m1 then
          match rest2 with
          | m2 :: r2 =>
            if isDigitChar m2 && onlyWs r2 then some (10 * digitVal m1 + digitVal m2)
            else if onlyWs rest2 then some (digitVal m1)
            else none
          | [] => some (digitVal m1)
        else none
    else none

/-- Matches `(\d;{1,2})` then `parseAfterHour`, preferring the two-digit
hour and backtracking to one digit, as the regex engine would. -/
def hourMin : Str → Option (Nat × Nat)
  | [] => none
  | c1 :: rest =>
    if isDigitChar c1 then
      match rest with
      | c2 :: rest2 =>
        if isDigitChar c2 then
          match parseAfterHour rest2 with
          | some mi => some (10 * digitVal c1 + digitVal c2, mi)
          | none =>
            match parseAfterHour rest with
            | some mi => some (digitVal c1, mi)
            | none => none
        else
          match parseAfterHour rest with
          | some mi => some (digitVal c1, mi)
          | none => none
      | [] => some (digitVal c1, 0)
    else none

/-- The hour adjustment for the am/pm marker (`core/utils.py` lines 83-89). -/
def applyAmPm (mark : Option Str) (h : Nat) : Nat :=
  if mark = some (strL "下午") || mark = some (strL "晚上") then
    if 1 ≤ h && h < 12 then h + 12 else h
  else if mark = some (strL "凌晨") then
    if h = 12 || h = 24 then 0 else h
  else h

/-- The regex branch of `parse_datetime`: optional am/pm marker, spaces,
hour, optional separator and minute. -/
def parseCnHM (s : Str) : Option (Nat × Nat) :=
  match findMark amPmMarks s with
  | some (p, rest) =>
    match hourMin (rest.dropWhile isWsChar) with
    | some (h, mi) => some (applyAmPm (some p) h, mi)
    | none => none
  | none =>
    match hourMin (s.dropWhile isWsChar) with
    | some (h, mi) => some (h, mi)
    | none => none

/-- The `week_map` table of `parse_datetime` (`core/utils.py` lines 101-109). -/
def weekMap : List (Str × Nat) :=
  [(strL "周一", 0), (strL "mon", 0), (strL "monday", 0),
   (strL "周二", 1), (strL "tue", 1), (strL "tuesday", 1),
   (strL "周三", 2), (strL "wed", 2), (strL "wednesday", 2),
   (strL "周四", 3), (strL "thu", 3), (strL "thursday", 3),
   (strL "周五", 4), (strL "fri", 4), (strL "friday", 4),
   (strL "周六", 5), (strL "sat", 5), (strL "saturday", 5),
   (strL "周日", 6), (strL "sun", 6), (strL "sunday", 6)]

/-- Lowercased, stripped lookup into `weekMap`. -/
def weekLookup (w : Str) : Option Nat :=
  weekMap.lookup ((stripWs w).map Char.toLower)

/-- The format-dispatch phase of `parse_datetime` (`core/utils.py` lines
45-89): extracts the (hour, minute) pair from a stripped input, through the
digit, 16-char, 19-char and regex branches. -/
def parseTimeFields (s : Str) : Option (Nat × Nat) :=
  if (s ≠ [] && s.all isDigitChar) && (s.length = 3 || s.length = 4) then
    match s with
    | [a, b, c] => some (digitVal a, 10 * digitVal b + digitVal c)
    | [a, b, c, d] => some (10 * digitVal a + digitVal b, 10 * digitVal c + digitVal d)
    | _ => none
  else if s.contains ':' && s.contains '-' && s.length = 16 then
    match parseYmdHm s with
    | some (_, _, _, h, mi) => some (h, mi)
    | none => none
  else if s.contains ':' && s.contains '-' && s.length = 19 then
    match parseYmdHms s with
    | some (_, _, _, h, mi, _) => some (h, mi)
    | none => none
  else parseCnHM s

/-- Steps 4-8 of `parse_datetime` (`core/utils.py` lines 91-130): range
validation, anchoring to today/tomorrow, or to the next occurrence of the
requested weekday. -/
def anchorResult (h mi : Nat) (week : Option Str) (now : DT) : Option DT :=
  if h ≤ 23 && mi ≤ 59 then
    let dt0 : DT := ⟨now.day, h * 3600 + mi * 60⟩
    match week with
    | some w =>
      if w = [] then
        some (if dt0.toSec ≤ now.toSec then ⟨now.day + 1, dt0.sec⟩ else dt0)
      else
        match weekLookup w with
        | none => none
        | some target =>
          let cur := (now.day + 2) % 7
          let da : Int := (target : Int) - (cur : Int)
          let da2 := if da < 0 || (da = 0 && dt0.toSec ≤ now.toSec) then da + 7 else da
          some ⟨now.day + da2.toNat, dt0.sec⟩
    | none =>
      some (if dt0.toSec ≤ now.toSec then ⟨now.day + 1, dt0.sec⟩ else dt0)
  else none

/-- Embedding of `parse_datetime` (`core/utils.py` lines 17-133).  Returns
the computed future datetime, or `none` for `ValueError`.  The result of the
Python function is the `strftime "%Y-%m-%d %H:%M"` rendering of the returned
datetime (whose seconds are always zero). -/
def parse_datetime (input : Str) (week : Option Str) (now : DT) : Option DT :=
  match parseTimeFields (stripWs input) with
  | none => none
  | some (h, mi) => anchorResult h mi week now

/-- Embedded reminder record (§3 ReminderRecord; the dict stored in the
reminder data).  `none` models an absent key or Python `None`. -/
structure Reminder where
  text : Str
  date_time : Option Str
  user_name : Option Str
  repeat_type : Option Str
  holiday_type : Option Str
  creator_id : Option Str
  creator_name : Option Str
  is_task : Bool
deriving DecidableEq

/-- Embedding of `is_outdated` (`core/utils.py` lines 136-151): a reminder
is expired when its `date_time` parses and is not after `now`; missing,
empty or malformed `date_time` gives `false`. -/
def is_outdated (r : Reminder) (now : DT) : Bool :=
  match r.date_time with
  | none => false
  | some ds =>
    if ds = [] then false
    else
      match parseYmdHm ds with
      | some (y, mo, d, h, mi) => (dtOfCivil y mo d h mi).toSec ≤ now.toSec
      | none => false

/-! Holiday calendar service (`HolidayManager`, `core/utils.py`). -/

/-- The fetched per-year holiday table: short date `"MM-DD"` → flag
(`true` = legal holiday, `false` = compensatory workday). -/
abbrev HolidayTable := List (Str × Bool)

/-- Python `date.strftime("%m-%d")`. -/
def shortDate (mo d : Nat) : Str := digit2 mo ++ '-' :: digit2 d

/-- Embedding of `HolidayManager.is_holiday` (`core/utils.py` lines
481-511) for a given fetched table. -/
def is_holiday (table : HolidayTable) (y mo d : Nat) : Bool :=
  match table.lookup (shortDate mo d) with
  | some v => v == true
  | none => 5 ≤ weekdayOf y mo d

/-- Embedding of `HolidayManager.is_workday` (`core/utils.py` lines
513-544) for a given fetched table. -/
def is_workday (table : HolidayTable) (y mo d : Nat) : Bool :=
  match table.lookup (shortDate mo d) with
  | some v => v == false
  | none => if 5 ≤ weekdayOf y mo d then false else true

/-! Recurrence compiler and job scheduler (`ReminderScheduler`,
`core/scheduler.py`). -/

/-- Civil anchor datetime, the projection of the Python `datetime` object
that `add_job` reads (`dt.hour`, `dt.minute`, `dt.weekday()`, `dt.day`,
`dt.month`). -/
structure Anchor where
  year : Nat
  month : Nat
  day : Nat
  hour : Nat
  minute : Nat
deriving DecidableEq

/-- Python `dt.weekday()` of an anchor. -/
def Anchor.weekday (a : Anchor) : Nat := weekdayOf a.year a.month a.day

/-- Cron fields passed to `scheduler.add_job` (`none` = field not
constrained). -/
structure CronFields where
  hour : Nat
  minute : Nat
  day_of_week : Option Nat
  day : Option Nat
  month : Option Nat
deriving DecidableEq

/-- The callback a trigger routes through: direct delivery or a
workday/holiday gate check. -/
inductive GateKind
  | direct
  | workdayGate
  | holidayGate
deriving DecidableEq

/-- The trigger shape registered with the underlying APScheduler. -/
inductive Trigger
  | cron (fields : CronFields) (cb : GateKind)
  | date (runDate : Anchor) (cb : GateKind)
deriving DecidableEq

/-- Python falsiness of `holiday_type` (`not holiday_type`). -/
def falsy : Option Str → Bool
  | none => true
  | some s => s = []

/-- The trigger selected by the `if/elif` chain of
`ReminderScheduler.add_job` (`core/scheduler.py` lines 829-1007); the same
chain appears in `_init_scheduler` (lines 370-548). -/
def addJobTrigger (rt ht : Option Str) (dt : Anchor) : Trigger :=
  if rt = some (strL "daily") && falsy ht then
    .cron ⟨dt.hour, dt.minute, none, none, none⟩ .direct
  else if rt = some (strL "daily") && ht = some (strL "workday") then
    .cron ⟨dt.hour, dt.minute, none, none, none⟩ .workdayGate
  else if rt = some (strL "daily") && ht = some (strL "holiday") then
    .cron ⟨dt.hour, dt.minute, none, none, none⟩ .holidayGate
  else if rt = some (strL "weekly") && falsy ht then
    .cron ⟨dt.hour, dt.minute, some dt.weekday, none, none⟩ .direct
  else if rt = some (strL "weekly") && ht = some (strL "workday") then
    .cron ⟨dt.hour, dt.minute, some dt.weekday, none, none⟩ .workdayGate
  else if rt = some (strL "weekly") && ht = some (strL "holiday") then
    .cron ⟨dt.hour, dt.minute, some dt.weekday, none, none⟩ .holidayGate
  else if rt = some (strL "monthly") && falsy ht then
    .cron ⟨dt.hour, dt.minute, none, some dt.day, none⟩ .direct
  else if rt = some (strL "monthly") && ht = some (strL "workday") then
    .cron ⟨dt.hour, dt.minute, none, some dt.day, none⟩ .workdayGate
  else if rt = some (strL "monthly") && ht = some (strL "holiday") then
    .cron ⟨dt.hour, dt.minute, none, some dt.day, none⟩ .holidayGate
  else if rt = some (strL "yearly") && falsy ht then
    .cron ⟨dt.hour, dt.minute, none, some dt.day, some dt.month⟩ .direct
  else if rt = some (strL "yearly") && ht = some (strL "workday") then
    .cron ⟨dt.hour, dt.minute, none, some dt.day, some dt.month⟩ .workdayGate
  else if rt = some (strL "yearly") && ht = some (strL "holiday") then
    .cron ⟨dt.hour, dt.minute, none, some dt.day, some dt.month⟩ .holidayGate
  else
    .date dt .direct

/-- The §4.1 table written from the spec's words: cadence fields from the
anchor plus the gate as an orthogonal callback filter. -/
def gateFor (ht : Option Str) : GateKind :=
  if falsy ht then .direct
  else if ht = some (strL "workday") then .workdayGate
  else .holidayGate

/-- Python `f"{x}"` of an optional string field (`None` renders as
`"None"`). -/
def strOfOpt : Option Str → Str
  | none => strL "None"
  | some s => s

/-- The stable job id of `add_job` (lines 822-824):
`"remind_" + md5(f"{msg_origin}_{text}_{date_time}")`.  The md5 digest is
the external `hashlib` primitive, taken as a parameter. -/
def jobId (md5 : Str → Str) (msgOrigin : Str) (r : Reminder) : Str :=
  strL "remind_" ++ md5 (msgOrigin ++ '_' :: r.text ++ '_' :: strOfOpt r.date_time)

/-- The live jobs of the underlying scheduler, keyed by job id. -/
abbrev JobStore := List (Str × Trigger)

/-- APScheduler `add_job` with `replace_existing=True`: a job with the same
id is replaced, never duplicated. -/
def schedAddJobReplace (store : JobStore) (id : Str) (tr : Trigger) : JobStore :=
  (id, tr) :: store.filter (fun jt => jt.1 ≠ id)

/-- Number of live jobs with the given id. -/
def countJobs (store : JobStore) (id : Str) : Nat :=
  (store.filter (fun jt => jt.1 = id)).length

/-- How the underlying `scheduler.add_job` call returns: normally, with a
`ConflictingIdError`, or with any other exception. -/
inductive RegOutcome
  | ok
  | conflict
  | failed

/-- Embedding of `ReminderScheduler.add_job` (`core/scheduler.py` lines
816-1015): computes the job id, registers the compiled trigger with
`replace_existing=True`, and maps exceptions as the `try/except` does:
`ConflictingIdError` → `True` (lines 1010-1012), any other exception →
`False` (lines 1013-1015). -/
def add_job (md5 : Str → Str) (store : JobStore) (msgOrigin : Str) (r : Reminder)
    (dt : Anchor) (outcome : RegOutcome) : JobStore × Bool :=
  let id := jobId md5 msgOrigin r
  match outcome with
  | .ok => (schedAddJobReplace store id (addJobTrigger r.repeat_type r.holiday_type dt), true)
  | .conflict => (store, true)
  | .failed => (store, false)

/-- Embedding of `ReminderScheduler._check_and_execute_workday`
(`core/scheduler.py` lines 557-570): `some (msg, r)` means the delivery
callback `_reminder_callback msg r` is invoked; `none` means the occurrence
is skipped with nothing else done (no reschedule, no counting). -/
def check_and_execute_workday (table : HolidayTable) (y mo d : Nat)
    (msg : Str) (r : Reminder) : Option (Str × Reminder) :=
  if is_workday table y mo d then some (msg, r) else none

/-- Embedding of `ReminderScheduler._check_and_execute_holiday`
(`core/scheduler.py` lines 572-585). -/
def check_and_execute_holiday (table : HolidayTable) (y mo d : Nat)
    (msg : Str) (r : Reminder) : Option (Str × Reminder) :=
  if is_holiday table y mo d then some (msg, r) else none

/-- The repeat keywords of the expiry check in `_init_scheduler`
(lines 360-362): membership is a Python substring test. -/
def repeatKeywords : List Str :=
  [strL "daily", strL "weekly", strL "monthly", strL "yearly", strL "none"]

/-- Civil date from the day count (inverse of `daysFromCivil`), used when a
`strftime` output is re-parsed by `strptime`. -/
def civilOfDays (z : Nat) : Nat × Nat × Nat :=
  let era := z / 146097
  let doe := z % 146097
  let yoe := (doe - doe / 1460 + doe / 36524 - doe / 146096) / 365
  let y := yoe + era * 400
  let doy := doe - (365 * yoe + yoe / 4 - yoe / 100)
  let mp := (5 * doy + 2) / 153
  let d := doy - (153 * mp + 2) / 5 + 1
  let m := if mp < 10 then mp + 3 else mp - 9
  (if m ≤ 2 then y + 1 else y, m, d)

/-- The civil anchor of a linear datetime (the `datetime` object obtained by
`strptime(parse_datetime(...), "%Y-%m-%d %H:%M")`). -/
def anchorOfDT (t : DT) : Anchor :=
  ⟨(civilOfDays t.day).1, (civilOfDays t.day).2.1, (civilOfDays t.day).2.2,
    t.sec / 3600, t.sec % 3600 / 60⟩

/-- The per-record decision of the startup loop of `_init_scheduler`
(`core/scheduler.py` lines 339-368 plus the trigger chain 370-548):
`none` when no trigger is registered for the record (missing `date_time`,
re-parse failure, or the expiry skip at lines 360-364), otherwise the
registered trigger. -/
def initDecision (r : Reminder) (now : DT) : Option Trigger :=
  match r.date_time with
  | none => none
  | some ds =>
    match parse_datetime ds none now with
    | none => none
    | some dta =>
      if (r.repeat_type = some (strL "none") ||
          !(repeatKeywords.any fun k => containsSeq k (r.repeat_type.getD []))) &&
         is_outdated r now then
        none
      else
        some (addJobTrigger r.repeat_type r.holiday_type (anchorOfDT dta))

/-! Persistence layer (`core/utils.py`, `core/database.py`). -/

/-- The reminder store: session key → ordered reminder list. -/
abbrev Store := List (Str × List Reminder)

/-- The `is_one_time` helper inside `async_save_reminder_data`
(`core/utils.py` lines 354-362). -/
def is_one_time (r : Reminder) : Bool :=
  r.repeat_type = none || r.repeat_type = some (strL "none") ||
    r.repeat_type = some (strL "不重复")

/-- The record filter the flat-file save applies to each session's list
(`core/utils.py` lines 364-367). -/
def savePruneGroup (rs : List Reminder) (now : DT) : List Reminder :=
  rs.filter fun r =>
    (match r.date_time with | none => false | some ds => ds ≠ []) &&
      !(is_one_time r && is_outdated r now)

/-- Embedding of the flat-file branch of `async_save_reminder_data`
(`core/utils.py` lines 343-386): the store as written to the JSON file
(pruned of expired one-shot records and of emptied session keys); a
subsequent `load` returns exactly this value. -/
def async_save_reminder_data (store : Store) (now : DT) : Store :=
  (store.map fun kv => (kv.1, savePruneGroup kv.2 now)).filter fun kv => kv.2 ≠ []

/-- Embedding of `PostgresManager.save_reminder_data` (`core/database.py`
lines 105-153): the rows inserted after `DELETE FROM reminders` — every
record with a present, nonempty, parseable `date_time`, unchanged; no
expiry pruning. -/
def postgres_save_rows (store : Store) : List (Str × Reminder) :=
  (store.map fun kv =>
    (kv.2.filter fun r =>
      match r.date_time with
      | none => false
      | some ds => ds ≠ [] && (parseYmdHm ds).isSome).map fun r => (kv.1, r)).flatten

/-- Parse outcome of the external `json.loads`: a dict of reminder lists,
some other JSON value, or a decode error (`none`). -/
inductive JsonVal
  | dict (d : Store)
  | other

/-- The content `json.dump({}, f)` writes. -/
def emptyJson : Str := strL "\x7b\x7d"

/-- Result of `load_json_data`: the returned store, the data-file content
after the call, and the backup-file content (`none` when no backup was
made). -/
structure LoadResult where
  store : Store
  dataFile : Str
  backupFile : Option Str

/-- Embedding of `load_json_data` (`core/utils.py` lines 239-282) with the
external `json.loads` as the `parse` parameter.  `file = none` models a
missing data file.  The function is total: every Python exception path is
caught and yields an empty store. -/
def load_json_data (parse : Str → Option JsonVal) (file : Option Str) : LoadResult :=
  match file with
  | none => ⟨[], emptyJson, none⟩
  | some content =>
    if content = [] then ⟨[], emptyJson, none⟩
    else if stripWs content = [] then ⟨[], content, none⟩
    else
      match parse (stripWs content) with
      | some (JsonVal.dict d) => ⟨d, content, none⟩
      | some JsonVal.other => ⟨[], content, none⟩
      | none => ⟨[], emptyJson, some content⟩

/-! Fire callback (`ReminderScheduler._reminder_callback`,
`core/scheduler.py` lines 587-814). -/

/-- Outcome of the delivery-and-cleanup phase of `_reminder_callback`
(lines 731-799): the reminder store afterwards, whether it was persisted,
whether the one-shot deletion ran, and whether a resend was attempted after
a failed send.  Every delivery error is caught inside the callback, so the
function is total and never propagates an exception to the scheduler. -/
structure CallbackResult where
  store : Store
  persisted : Bool
  removedOne : Bool
  resendAttempted : Bool
deriving DecidableEq

/-- The deletion filter of the one-shot cleanup (lines 744-752). -/
def removeFired (rs : List Reminder) (r : Reminder) : List Reminder :=
  rs.filter fun q =>
    !(stripWs q.text = stripWs r.text &&
      stripWs (strOfOpt q.date_time) = stripWs (strOfOpt r.date_time) &&
      q.creator_id.getD [] = r.creator_id.getD [] &&
      (q.repeat_type.getD [] = strL "不重复" || q.repeat_type.getD [] = strL "none"))

/-- Embedding of the send block of `_reminder_callback` (lines 731-799):
`sendOk` is the outcome of the initial `context.send_message`.  On success
a one-shot record is deleted from the store and the store persisted; on
failure the exception is caught, one resend is attempted, and the store is
left untouched. -/
def reminder_callback_deliver (store : Store) (key : Str) (r : Reminder)
    (sendOk : Bool) : CallbackResult :=
  if sendOk then
    if r.repeat_type = some (strL "不重复") || r.repeat_type = some (strL "none") then
      if (store.lookup key).isSome then
        ⟨store.map fun kv => if kv.1 = key then (kv.1, removeFired kv.2 r) else kv,
          true, true, false⟩
      else ⟨store, false, false, false⟩
    else ⟨store, false, false, false⟩
  else ⟨store, false, false, true⟩

/-! String lemmas used to reason about the session-identity resolver. -/

theorem beginsWith_refl_append (p t : Str) : beginsWith p (p ++ t) = true := by
  induction p with
  | nil => rfl
  | cons a as ih => simp [beginsWith, ih]

theorem beginsWith_eq_true_iff (p s : Str) :
    beginsWith p s = true ↔ ∃ t, s = p ++ t := by
  induction p generalizing s with
  | nil => simp [beginsWith]
  | cons a as ih =>
    cases s with
    | nil => simp [beginsWith]
    | cons b bs =>
      simp only [beginsWith, Bool.and_eq_true, decide_eq_true_eq, ih]
      constructor
      · rintro ⟨rfl, t, rfl⟩
        exact ⟨t, rfl⟩
      · rintro ⟨t, ht⟩
        injection ht with h1 h2
        exact ⟨h1.symm, t, h2⟩

theorem containsSeq_append_self (pat a b : Str) :
    containsSeq pat (a ++ pat ++ b) = true := by
  induction a with
  | nil =>
    simp only [List.nil_append]
    cases hp : pat with
    | nil =>
      cases b with
      | nil => rfl
      | cons x r => simp [containsSeq, beginsWith]
    | cons x pr =>
      have hb := beginsWith_refl_append (x :: pr) b
      simp only [List.cons_append, containsSeq]
      simp only [List.cons_append] at hb
      simp [hb]
  | cons x a' ih =>
    have hstep : containsSeq pat ((x :: a') ++ pat ++ b)
        = (beginsWith pat ((x :: a') ++ pat ++ b) || containsSeq pat (a' ++ pat ++ b)) := rfl
    rw [hstep, ih, Bool.or_true]

theorem containsSeq_eq_true_iff (c : Char) (pr s : Str) :
    containsSeq (c :: pr) s = true ↔ ∃ a b, s = a ++ (c :: pr) ++ b := by
  induction s with
  | nil =>
    constructor
    · intro h; simp [containsSeq, List.isEmpty] at h
    · rintro ⟨a, b, h⟩; cases a <;> simp at h
  | cons x s' ih =>
    constructor
    · intro h
      simp only [containsSeq, Bool.or_eq_true] at h
      rcases h with h | h
      · obtain ⟨t, ht⟩ := (beginsWith_eq_true_iff _ _).1 h
        exact ⟨[], t, by simpa using ht⟩
      · obtain ⟨a, b, rfl⟩ := ih.1 h
        exact ⟨x :: a, b, rfl⟩
    · rintro ⟨a, b, h⟩
      cases a with
      | nil =>
        simp only [List.nil_append, List.cons_append, List.cons.injEq] at h
        obtain ⟨rfl, h2⟩ := h
        simp only [containsSeq, Bool.or_eq_true]
        exact Or.inl ((beginsWith_eq_true_iff _ _).2 ⟨b, by simp [h2]⟩)
      | cons y a' =>
        simp only [List.cons_append, List.cons.injEq] at h
        obtain ⟨rfl, h2⟩ := h
        simp only [containsSeq, Bool.or_eq_true]
        exact Or.inr (ih.2 ⟨a', b, h2⟩)

theorem containsSeq_eq_false_of_not_mem (c : Char) (pr s : Str) (h : c ∉ s) :
    containsSeq (c :: pr) s = false := by
  rcases hb : containsSeq (c :: pr) s with _ | _
  · rfl
  · obtain ⟨a, b, rfl⟩ := (containsSeq_eq_true_iff c pr s).1 hb
    exact absurd (by simp : c ∈ a ++ (c :: pr) ++ b) h

theorem append_cons_inj (c : Char) (u r : Str) (hr : c ∉ r) :
    ∀ a m : Str, c ∉ m → a ++ c :: u = m ++ c :: r → a = m ∧ u = r := by
  intro a
  induction a with
  | nil =>
    intro m hm h
    cases m with
    | nil => simpa using h
    | cons x m' =>
      simp only [List.nil_append, List.cons_append, List.cons.injEq] at h
      exact absurd (h.1 ▸ List.mem_cons_self x m') hm
  | cons y a' ih =>
    intro m hm h
    cases m with
    | nil =>
      simp only [List.cons_append, List.nil_append, List.cons.injEq] at h
      exact absurd (h.2 ▸ (by simp : c ∈ a' ++ c :: u)) hr
    | cons x m' =>
      simp only [List.cons_append, List.cons.injEq] at h
      obtain ⟨ha, hu⟩ := ih m' (fun hc => hm (List.mem_cons_of_mem _ hc)) h.2
      exact ⟨by rw [h.1, ha], hu⟩

theorem append_cons_two (c : Char) (m r : Str) (hm : c ∉ m) (hr : c ∉ r) :
    ∀ a u p : Str, c ∉ p → a ++ c :: u = p ++ c :: m ++ c :: r →
      (a = p ∧ u = m ++ c :: r) ∨ (a = p ++ c :: m ∧ u = r) := by
  intro a
  induction a with
  | nil =>
    intro u p hp h
    cases p with
    | nil => exact Or.inl ⟨rfl, by simpa using h⟩
    | cons x p' =>
      simp only [List.nil_append, List.cons_append, List.cons.injEq] at h
      exact absurd (h.1 ▸ List.mem_cons_self x p') hp
  | cons y a' ih =>
    intro u p hp h
    cases p with
    | nil =>
      simp only [List.cons_append, List.nil_append, List.cons.injEq] at h
      obtain ⟨ha, hu⟩ := append_cons_inj c u r hr a' m hm h.2
      exact Or.inr ⟨by simp [h.1, ha], hu⟩
    | cons x p' =>
      simp only [List.cons_append, List.cons.injEq] at h
      rcases ih u p' (fun hc => hp (List.mem_cons_of_mem _ hc)) h.2 with ⟨ha, hu⟩ | ⟨ha, hu⟩
      · exact Or.inl ⟨by rw [h.1, ha], hu⟩
      · exact Or.inr ⟨by rw [h.1, ha]; rfl, hu⟩

theorem containsSeq_marker_iff (c : Char) (g p m r : Str)
    (hp : c ∉ p) (hm : c ∉ m) (hr : c ∉ r) :
    containsSeq (c :: (g ++ [c])) (p ++ c :: m ++ c :: r) = true ↔ g = m := by
  constructor
  · intro h
    obtain ⟨a, b, hab⟩ := (containsSeq_eq_true_iff _ _ _).1 h
    have hab' : a ++ c :: (g ++ c :: b) = p ++ c :: m ++ c :: r := by
      rw [hab]; simp
    rcases append_cons_two c m r hm hr a (g ++ c :: b) p hp hab' with ⟨_, h2⟩ | ⟨_, h2⟩
    · exact (append_cons_inj c b r hr g m hm h2).1
    · exact absurd (h2 ▸ (by simp : c ∈ g ++ c :: b)) hr
  · rintro rfl
    have := containsSeq_append_self (c :: (g ++ [c])) p r
    simpa using this

theorem splitOnC_ne_nil (c : Char) (s : Str) : splitOnC c s ≠ [] := by
  cases s with
  | nil => simp [splitOnC]
  | cons a s' =>
    by_cases h : a = c
    · simp [splitOnC, h]
    · simp only [splitOnC, if_neg h]
      rcases hsp : splitOnC c s' with _ | ⟨t, ts⟩ <;> simp

theorem splitOnC_append (c : Char) (a b : Str) :
    splitOnC c (a ++ c :: b) = splitOnC c a ++ splitOnC c b := by
  induction a with
  | nil => simp [splitOnC]
  | cons x a' ih =>
    by_cases h : x = c
    · simp [splitOnC, h, ih]
    · simp only [List.cons_append, splitOnC, if_neg h]
      rcases hsp : splitOnC c a' with _ | ⟨t, ts⟩
      · exact absurd hsp (splitOnC_ne_nil c a')
      · simp [ih, hsp]

theorem splitOnC_of_not_mem (c : Char) (s : Str) (h : c ∉ s) : splitOnC c s = [s] := by
  induction s with
  | nil => rfl
  | cons a s' ih =>
    have ha : a ≠ c := fun hc => h (hc ▸ List.mem_cons_self a s')
    rw [splitOnC, if_neg ha, ih (fun hc => h (List.mem_cons_of_mem _ hc))]

theorem interC_cons_head (c x : Char) (t : Str) (ts : List Str) :
    interC c ((x :: t) :: ts) = x :: interC c (t :: ts) := by
  cases ts <;> simp [interC]

theorem interC_splitOnC (c : Char) (s : Str) : interC c (splitOnC c s) = s := by
  induction s with
  | nil => rfl
  | cons a s' ih =>
    by_cases h : a = c
    · subst h
      rw [splitOnC, if_pos rfl]
      rcases hsp : splitOnC a s' with _ | ⟨t, ts⟩
      · exact absurd hsp (splitOnC_ne_nil a s')
      · rw [← hsp]
        show interC a ([] :: splitOnC a s') = a :: s'
        rw [hsp]
        simpa [interC, interC_cons_head, ← hsp] using congrArg (fun l => (a : Char) :: l) ih
    · rw [splitOnC, if_neg h]
      rcases hsp : splitOnC c s' with _ | ⟨t, ts⟩
      · exact absurd hsp (splitOnC_ne_nil c s')
      · rw [interC_cons_head, ← hsp, ih]

theorem rsplit1_eq (c : Char) (a b : Str) (hb : c ∉ b) :
    rsplit1 c (a ++ c :: b) = [a, b] := by
  have hlen : 0 < (splitOnC c a).length :=
    List.length_pos.2 (splitOnC_ne_nil c a)
  simp only [rsplit1, splitOnC_append, splitOnC_of_not_mem c b hb]
  rw [if_neg (by simp only [List.length_append, List.length_cons, List.length_nil]; omega)]
  simp [List.dropLast_concat, List.getLastD_concat, interC_splitOnC]

theorem splitOnC_three (c : Char) (p m b : Str) (hp : c ∉ p) (hm : c ∉ m) (hb : c ∉ b) :
    splitOnC c (p ++ c :: (m ++ c :: b)) = [p, m, b] := by
  rw [splitOnC_append, splitOnC_append, splitOnC_of_not_mem c p hp,
    splitOnC_of_not_mem c m hm, splitOnC_of_not_mem c b hb]
  rfl

theorem splitSeqGo_of_not_mem (c : Char) (pr : Str) :
    ∀ (fuel : Nat) (s : Str), c ∉ s → s.length ≤ fuel →
      splitSeqGo (c :: pr) fuel s = [s] := by
  intro fuel
  induction fuel with
  | zero => intro s _ _; rfl
  | succ f ih =>
    intro s hs hlen
    cases s with
    | nil => rfl
    | cons x s' =>
      have hcx : c ≠ x := fun hc => hs (by simp [hc])
      have hbw : beginsWith (c :: pr) (x :: s') = false := by
        simp [beginsWith, hcx]
      simp only [splitSeqGo, hbw, Bool.and_false, Bool.false_eq_true, if_false]
      rw [ih s' (fun hc => hs (List.mem_cons_of_mem _ hc))
        (by simpa using Nat.le_of_succ_le_succ hlen)]

theorem splitSeqGo_single (c : Char) (pr b : Str) (hb : c ∉ b) :
    ∀ (fuel : Nat) (a : Str), c ∉ a → (a ++ c :: (pr ++ b)).length ≤ fuel →
      splitSeqGo (c :: pr) fuel (a ++ c :: (pr ++ b)) = [a, b] := by
  intro fuel
  induction fuel with
  | zero =>
    intro a _ hlen
    simp [List.length_append] at hlen
  | succ f ih =>
    intro a ha hlen
    cases a with
    | nil =>
      simp only [List.nil_append]
      have hbw : beginsWith (c :: pr) (c :: (pr ++ b)) = true :=
        beginsWith_refl_append (c :: pr) b
      have hdrop : (c :: (pr ++ b)).drop (c :: pr).length = b :=
        List.drop_left (c :: pr) b
      simp only [splitSeqGo, hbw, Bool.and_true]
      rw [if_pos (by simp), hdrop,
        splitSeqGo_of_not_mem c pr f b hb
          (by simp only [List.nil_append, List.length_cons, List.length_append] at hlen; omega)]
    | cons x a' =>
      have hcx : c ≠ x := fun hc => ha (by simp [hc])
      have hbw : beginsWith (c :: pr) (x :: (a' ++ c :: (pr ++ b))) = false := by
        simp [beginsWith, hcx]
      have hstep : (x :: a') ++ c :: (pr ++ b) = x :: (a' ++ c :: (pr ++ b)) := by
        simp
      rw [hstep]
      simp only [splitSeqGo, hbw, Bool.and_false, Bool.false_eq_true, if_false]
      rw [ih a' (fun hc => ha (List.mem_cons_of_mem _ hc))
        (by simp only [List.length_cons, List.length_append] at hlen ⊢; omega)]

theorem splitSeq_single (c : Char) (pr a b : Str)
    (ha : c ∉ a) (hb : c ∉ b) :
    splitSeq (c :: pr) (a ++ c :: (pr ++ b)) = [a, b] :=
  splitSeqGo_single c pr b hb _ a ha (Nat.le_succ _)

theorem beginsWith_append_eq (c : Char) (w : Str) (hcw : c ∉ w) :
    ∀ s t : Str, c ∈ s → beginsWith w (s ++ t) = beginsWith w s := by
  induction w with
  | nil => intro s t _; simp [beginsWith]
  | cons x w' ih =>
    intro s t hcs
    cases s with
    | nil => cases hcs
    | cons y s' =>
      by_cases hxy : x = y
      · subst hxy
        have hy : c ≠ x := fun h => hcw (h ▸ List.mem_cons_self x w')
        have hcs' : c ∈ s' := by
          rcases List.mem_cons.1 hcs with h | h
          · exact absurd h hy
          · exact h
        simp [beginsWith, ih (fun hc => hcw (List.mem_cons_of_mem _ hc)) s' t hcs']
      · simp [beginsWith, hxy]

/-! Round-trip lemmas for the session-identity resolver (claim C1). -/

theorem get_session_id_eq (p m rid c : Str) (hrid : ':' ∉ rid) (hc : c ≠ []) :
    get_session_id true (p ++ ':' :: (m ++ ':' :: rid)) (some c)
      = p ++ ':' :: (m ++ ':' :: (rid ++ '_' :: c)) := by
  have hr : rsplit1 ':' (p ++ ':' :: (m ++ ':' :: rid)) = [p ++ ':' :: m, rid] := by
    have := rsplit1_eq ':' (p ++ ':' :: m) rid hrid
    simpa [List.append_assoc] using this
  simp only [get_session_id, Bool.not_true, Bool.false_eq_true, if_false]
  rw [if_neg hc]
  rcases h1 : (containsSeq groupMark (p ++ ':' :: (m ++ ':' :: rid))
      || containsSeq chatroomMark (p ++ ':' :: (m ++ ':' :: rid))
      || containsSeq channelMark (p ++ ':' :: (m ++ ':' :: rid))) with _ | _
  · simp only [h1, Bool.false_eq_true, if_false]
    rcases h2 : containsSeq privateMark (p ++ ':' :: (m ++ ':' :: rid)) with _ | _
    · simp only [h2, Bool.false_eq_true, if_false]
      simp [List.append_assoc]
    · simp only [h2, if_true, hr]
      simp [List.append_assoc]
  · simp only [h1, if_true, hr]
    simp [List.append_assoc]

theorem gosGeneric_eq (p m rid c : Str)
    (hrid : ':' ∉ rid) (hcc : ':' ∉ c) (hcu : '_' ∉ c) :
    gosGeneric (p ++ ':' :: (m ++ ':' :: (rid ++ '_' :: c)))
      = p ++ ':' :: (m ++ ':' :: rid) := by
  have hb : ':' ∉ rid ++ '_' :: c := by
    simp only [List.mem_append, List.mem_cons, not_or]
    exact ⟨hrid, by decide, hcc⟩
  have h1 : rsplit1 ':' (p ++ ':' :: (m ++ ':' :: (rid ++ '_' :: c)))
      = [p ++ ':' :: m, rid ++ '_' :: c] := by
    have := rsplit1_eq ':' (p ++ ':' :: m) (rid ++ '_' :: c) hb
    simpa [List.append_assoc] using this
  have h2 : (rid ++ '_' :: c).contains '_' = true :=
    List.elem_eq_true_of_mem (by simp)
  have h3 : rsplit1 '_' (rid ++ '_' :: c) = [rid, c] := rsplit1_eq '_' rid c hcu
  simp only [gosGeneric, h1, h2, if_true, h3]
  simp [List.append_assoc]

theorem gosChatroom_none (s : Str) (h : '@' ∉ s) : gosChatroom s = none := by
  have : containsSeq chatroomMark s = false :=
    containsSeq_eq_false_of_not_mem '@' (strL "chatroom") s h
  simp [gosChatroom, this]

theorem gosWechat_eq (p rid c : Str)
    (hp : ':' ∉ p) (hrid : ':' ∉ rid) (hcc : ':' ∉ c) (hcu : '_' ∉ c)
    (hap : '@' ∉ p) (har : '@' ∉ rid) (hac : '@' ∉ c) :
    gosWechat (p ++ ':' :: (strL "GroupMessage" ++ ':' :: (rid ++ '_' :: c)))
      = p ++ ':' :: (strL "GroupMessage" ++ ':' :: rid) := by
  have hb : ':' ∉ rid ++ '_' :: c := by
    simp only [List.mem_append, List.mem_cons, not_or]
    exact ⟨hrid, by decide, hcc⟩
  have hat : '@' ∉ p ++ ':' :: (strL "GroupMessage" ++ ':' :: (rid ++ '_' :: c)) := by
    simp only [List.mem_append, List.mem_cons, not_or]
    exact ⟨hap, by decide, by decide, by decide, har, by decide, hac⟩
  have hnoc : containsSeq (strL "@chatroom_")
      (p ++ ':' :: (strL "GroupMessage" ++ ':' :: (rid ++ '_' :: c))) = false :=
    containsSeq_eq_false_of_not_mem '@' (strL "chatroom_") _ hat
  have hgm : containsSeq groupMark
      (p ++ ':' :: (strL "GroupMessage" ++ ':' :: (rid ++ '_' :: c))) = true := by
    have := (containsSeq_marker_iff ':' (strL "GroupMessage") p (strL "GroupMessage")
      (rid ++ '_' :: c) hp (by decide) hb).2 rfl
    simpa [List.append_assoc] using this
  have hsp : splitOnC ':' (p ++ ':' :: (strL "GroupMessage" ++ ':' :: (rid ++ '_' :: c)))
      = [p, strL "GroupMessage", rid ++ '_' :: c] :=
    splitOnC_three ':' p (strL "GroupMessage") (rid ++ '_' :: c) hp (by decide) hb
  have h2 : (rid ++ '_' :: c).contains '_' = true :=
    List.elem_eq_true_of_mem (by simp)
  have h3 : rsplit1 '_' (rid ++ '_' :: c) = [rid, c] := rsplit1_eq '_' rid c hcu
  have hlastd : ([p, strL "GroupMessage", rid ++ '_' :: c] : List Str).getLastD []
      = rid ++ '_' :: c := rfl
  simp only [gosWechat, hnoc, Bool.false_eq_true, if_false, hgm, hsp, hlastd,
    h2, Bool.and_self, if_true, h3]
  simp [List.append_assoc]

theorem gosChatroom_eq (p m room c : Str)
    (hp : ':' ∉ p) (hm : ':' ∉ m) (hroom : ':' ∉ room) (hcc : ':' ∉ c)
    (hap : '@' ∉ p) (ham : '@' ∉ m) (haroom : '@' ∉ room) (hac : '@' ∉ c) :
    gosChatroom (p ++ ':' :: (m ++ ':' :: (room ++ chatroomMark ++ '_' :: c)))
      = some (p ++ ':' :: (m ++ ':' :: (room ++ chatroomMark))) := by
  have hcontains : containsSeq chatroomMark
      (p ++ ':' :: (m ++ ':' :: (room ++ chatroomMark ++ '_' :: c))) = true := by
    have := containsSeq_append_self chatroomMark
      (p ++ ':' :: (m ++ ':' :: room)) ('_' :: c)
    simpa [List.append_assoc] using this
  have hthree : ':' ∉ room ++ chatroomMark ++ '_' :: c := by
    simp only [List.mem_append, List.mem_cons, not_or]
    exact ⟨⟨hroom, by decide⟩, by decide, hcc⟩
  have hsp : splitOnC ':' (p ++ ':' :: (m ++ ':' :: (room ++ chatroomMark ++ '_' :: c)))
      = [p, m, room ++ chatroomMark ++ '_' :: c] :=
    splitOnC_three ':' p m (room ++ chatroomMark ++ '_' :: c) hp hm hthree
  have hseq : splitSeq chatroomMark
      (p ++ ':' :: (m ++ ':' :: (room ++ chatroomMark ++ '_' :: c)))
      = [p ++ ':' :: (m ++ ':' :: room), '_' :: c] := by
    have hA : '@' ∉ p ++ ':' :: (m ++ ':' :: room) := by
      simp only [List.mem_append, List.mem_cons, not_or]
      exact ⟨hap, by decide, ham, by decide, haroom⟩
    have hB : '@' ∉ ('_' : Char) :: c := by
      simp only [List.mem_cons, not_or]
      exact ⟨by decide, hac⟩
    have := splitSeq_single '@' (strL "chatroom")
      (p ++ ':' :: (m ++ ':' :: room)) ('_' :: c) hA hB
    simpa [chatroomMark, strL, List.append_assoc] using this
  have hlast : (splitOnC ':' (p ++ ':' :: (m ++ ':' :: room))).getLastD [] = room := by
    rw [splitOnC_three ':' p m room hp hm hroom]
    rfl
  simp only [gosChatroom, hcontains, if_true, splitN2, hsp, List.length_cons,
    List.length_nil, hseq, hlast]
  simp [beginsWith, strL, List.append_assoc]

/-- Claim C1 (amended): with per-user isolation enabled, deisolating an
isolated key recovers the raw key `platform:messageType:rawId` provided the
components are colon-free, the creator id is nonempty and underscore-free,
and the key is (a) a `@chatroom` group key on any platform, (b) a
`GroupMessage` key on any platform, or (c) any key on a non-wechat-family
platform (components `'@'`-free in each case). -/
theorem C1_session_isolation_roundtrip (p m rid c : Str)
    (hp : ':' ∉ p) (hm : ':' ∉ m) (hrid : ':' ∉ rid) (hcc : ':' ∉ c)
    (hcu : '_' ∉ c) (hcn : c ≠ []) :
    (∀ room : Str, rid = room ++ chatroomMark → '@' ∉ room → '@' ∉ p → '@' ∉ m → '@' ∉ c →
        get_original_session_id
            (get_session_id true (p ++ ':' :: (m ++ ':' :: rid)) (some c))
          = p ++ ':' :: (m ++ ':' :: rid))
    ∧ (m = strL "GroupMessage" → '@' ∉ p → '@' ∉ rid → '@' ∉ c →
        get_original_session_id
            (get_session_id true (p ++ ':' :: (m ++ ':' :: rid)) (some c))
          = p ++ ':' :: (m ++ ':' :: rid))
    ∧ ((wechatPlatforms.any fun w => beginsWith w (p ++ ':' :: (m ++ ':' :: rid))) = false →
        '@' ∉ p → '@' ∉ m → '@' ∉ rid → '@' ∉ c →
        get_original_session_id
            (get_session_id true (p ++ ':' :: (m ++ ':' :: rid)) (some c))
          = p ++ ':' :: (m ++ ':' :: rid)) := by
  rw [get_session_id_eq p m rid c hrid hcn]
  have hunder : (p ++ ':' :: (m ++ ':' :: (rid ++ '_' :: c))).contains '_' = true :=
    List.elem_eq_true_of_mem (by simp)
  have hcolon : (p ++ ':' :: (m ++ ':' :: (rid ++ '_' :: c))).contains ':' = true :=
    List.elem_eq_true_of_mem (by simp)
  refine ⟨?_, ?_, ?_⟩
  · rintro room rfl hroom hap ham hac
    have hroomc : ':' ∉ room := fun h => hrid (by simp [h])
    have hch : gosChatroom (p ++ ':' :: (m ++ ':' :: (room ++ chatroomMark ++ '_' :: c)))
        = some (p ++ ':' :: (m ++ ':' :: (room ++ chatroomMark))) :=
      gosChatroom_eq p m room c hp hm hroomc hcc hap ham hroom hac
    simp only [get_original_session_id, hch]
  · rintro rfl hap har hac
    have hat : '@' ∉ p ++ ':' :: (strL "GroupMessage" ++ ':' :: (rid ++ '_' :: c)) := by
      simp only [List.mem_append, List.mem_cons, not_or]
      exact ⟨hap, by decide, by decide, by decide, har, by decide, hac⟩
    simp only [get_original_session_id, gosChatroom_none _ hat, hunder, hcolon,
      Bool.and_self, if_true]
    rcases hany : (wechatPlatforms.any fun w =>
        beginsWith w (p ++ ':' :: (strL "GroupMessage" ++ ':' :: (rid ++ '_' :: c)))) with _ | _
    · simp only [Bool.false_eq_true, if_false]
      exact gosGeneric_eq p (strL "GroupMessage") rid c hrid hcc hcu
    · simp only [if_true]
      exact gosWechat_eq p rid c hp hrid hcc hcu hap har hac
  · intro hany hap ham har hac
    have hat : '@' ∉ p ++ ':' :: (m ++ ':' :: (rid ++ '_' :: c)) := by
      simp only [List.mem_append, List.mem_cons, not_or]
      exact ⟨hap, by decide, ham, by decide, har, by decide, hac⟩
    have hmemc : ':' ∈ p ++ ':' :: (m ++ ':' :: rid) := by simp
    have t1 := beginsWith_append_eq ':' (strL "gewechat") (by decide)
      (p ++ ':' :: (m ++ ':' :: rid)) ('_' :: c) hmemc
    have t2 := beginsWith_append_eq ':' (strL "wechatpadpro") (by decide)
      (p ++ ':' :: (m ++ ':' :: rid)) ('_' :: c) hmemc
    have t3 := beginsWith_append_eq ':' (strL "wecom") (by decide)
      (p ++ ':' :: (m ++ ':' :: rid)) ('_' :: c) hmemc
    have hany' : (wechatPlatforms.any fun w =>
        beginsWith w (p ++ ':' :: (m ++ ':' :: (rid ++ '_' :: c)))) = false := by
      simp only [wechatPlatforms, List.any_cons, List.any_nil] at hany ⊢
      simp only [List.append_assoc, List.cons_append] at t1 t2 t3
      rw [t1, t2, t3]
      simpa using hany
    simp only [get_original_session_id, gosChatroom_none _ hat, hunder, hcolon,
      Bool.and_self, if_true, hany', Bool.false_eq_true, if_false]
    exact gosGeneric_eq p m rid c hrid hcc hcu

/-! Digit and strip lemmas for the datetime parser. -/

theorem dChar_facts :
    ∀ k, k < 10 → isDigitChar (dChar k) = true ∧ digitVal (dChar k) = k ∧
      isWsChar (dChar k) = false := by decide

theorem stripWs_eq_self (s : Str)
    (h1 : ∀ c, s.head? = some c → isWsChar c = false)
    (h2 : ∀ c, s.reverse.head? = some c → isWsChar c = false) : stripWs s = s := by
  cases s with
  | nil => rfl
  | cons x t =>
    have hx : isWsChar x = false := h1 x rfl
    rcases hrev : (x :: t : Str).reverse with _ | ⟨d, rt⟩
    · exact absurd (List.reverse_eq_nil_iff.1 hrev) (by simp)
    · have hd : isWsChar d = false := h2 d (by rw [hrev]; rfl)
      unfold stripWs
      rw [List.dropWhile_cons, if_neg (by simp [hx])]
      rw [hrev, List.dropWhile_cons, if_neg (by simp [hd]), ← hrev, List.reverse_reverse]

theorem parseYmdHm_fmt (y mo d h mi : Nat) (hy1 : 1 ≤ y) (hy : y ≤ 9999)
    (hmo1 : 1 ≤ mo) (hmo : mo ≤ 12) (hd1 : 1 ≤ d) (hdm : d ≤ daysInMonth y mo)
    (hh : h ≤ 23) (hmi : mi ≤ 59) :
    parseYmdHm (fmtYmdHm y mo d h mi) = some (y, mo, d, h, mi) := by
  obtain ⟨dy1, vy1, -⟩ := dChar_facts (y / 1000) (by omega)
  obtain ⟨dy2, vy2, -⟩ := dChar_facts (y / 100 % 10) (by omega)
  obtain ⟨dy3, vy3, -⟩ := dChar_facts (y / 10 % 10) (by omega)
  obtain ⟨dy4, vy4, -⟩ := dChar_facts (y % 10) (by omega)
  have hd31 : d ≤ 31 :=
    le_trans hdm (by unfold daysInMonth; split_ifs <;> omega)
  obtain ⟨dm1, vm1, -⟩ := dChar_facts (mo / 10) (by omega)
  obtain ⟨dm2, vm2, -⟩ := dChar_facts (mo % 10) (by omega)
  obtain ⟨dd1, vd1, -⟩ := dChar_facts (d / 10) (by omega)
  obtain ⟨dd2, vd2, -⟩ := dChar_facts (d % 10) (by omega)
  obtain ⟨dh1, vh1, -⟩ := dChar_facts (h / 10) (by omega)
  obtain ⟨dh2, vh2, -⟩ := dChar_facts (h % 10) (by omega)
  obtain ⟨di1, vi1, -⟩ := dChar_facts (mi / 10) (by omega)
  obtain ⟨di2, vi2, -⟩ := dChar_facts (mi % 10) (by omega)
  have hyv : 1000 * (y / 1000) + 100 * (y / 100 % 10) + 10 * (y / 10 % 10) + y % 10 = y := by
    omega
  have hmov : 10 * (mo / 10) + mo % 10 = mo := by omega
  have hdv : 10 * (d / 10) + d % 10 = d := by omega
  have hhv : 10 * (h / 10) + h % 10 = h := by omega
  have hmiv : 10 * (mi / 10) + mi % 10 = mi := by omega
  simp only [fmtYmdHm, digit4, digit2, List.cons_append, List.nil_append]
  simp only [parseYmdHm, dy1, dy2, dy3, dy4, dm1, dm2, dd1, dd2, dh1, dh2, di1, di2,
    Bool.and_self, if_true, vy1, vy2, vy3, vy4, vm1, vm2, vd1, vd2, vh1, vh2, vi1, vi2,
    hyv, hmov, hdv, hhv, hmiv]
  simp [hy1, hmo1, hmo, hd1, hdm, hh, hmi]

theorem parseYmdHms_fmt (y mo d h mi sc : Nat) (hy1 : 1 ≤ y) (hy : y ≤ 9999)
    (hmo1 : 1 ≤ mo) (hmo : mo ≤ 12) (hd1 : 1 ≤ d) (hdm : d ≤ daysInMonth y mo)
    (hh : h ≤ 23) (hmi : mi ≤ 59) (hsc : sc ≤ 59) :
    parseYmdHms (fmtYmdHms y mo d h mi sc) = some (y, mo, d, h, mi, sc) := by
  obtain ⟨dy1, vy1, -⟩ := dChar_facts (y / 1000) (by omega)
  obtain ⟨dy2, vy2, -⟩ := dChar_facts (y / 100 % 10) (by omega)
  obtain ⟨dy3, vy3, -⟩ := dChar_facts (y / 10 % 10) (by omega)
  obtain ⟨dy4, vy4, -⟩ := dChar_facts (y % 10) (by omega)
  have hd31 : d ≤ 31 :=
    le_trans hdm (by unfold daysInMonth; split_ifs <;> omega)
  obtain ⟨dm1, vm1, -⟩ := dChar_facts (mo / 10) (by omega)
  obtain ⟨dm2, vm2, -⟩ := dChar_facts (mo % 10) (by omega)
  obtain ⟨dd1, vd1, -⟩ := dChar_facts (d / 10) (by omega)
  obtain ⟨dd2, vd2, -⟩ := dChar_facts (d % 10) (by omega)
  obtain ⟨dh1, vh1, -⟩ := dChar_facts (h / 10) (by omega)
  obtain ⟨dh2, vh2, -⟩ := dChar_facts (h % 10) (by omega)
  obtain ⟨di1, vi1, -⟩ := dChar_facts (mi / 10) (by omega)
  obtain ⟨di2, vi2, -⟩ := dChar_facts (mi % 10) (by omega)
  obtain ⟨ds1, vs1, -⟩ := dChar_facts (sc / 10) (by omega)
  obtain ⟨ds2, vs2, -⟩ := dChar_facts (sc % 10) (by omega)
  have hyv : 1000 * (y / 1000) + 100 * (y / 100 % 10) + 10 * (y / 10 % 10) + y % 10 = y := by
    omega
  have hmov : 10 * (mo / 10) + mo % 10 = mo := by omega
  have hdv : 10 * (d / 10) + d % 10 = d := by omega
  have hhv : 10 * (h / 10) + h % 10 = h := by omega
  have hmiv : 10 * (mi / 10) + mi % 10 = mi := by omega
  have hscv : 10 * (sc / 10) + sc % 10 = sc := by omega
  simp only [fmtYmdHms, digit4, digit2, List.cons_append, List.nil_append]
  simp only [parseYmdHms, dy1, dy2, dy3, dy4, dm1, dm2, dd1, dd2, dh1, dh2, di1, di2,
    ds1, ds2, Bool.and_self, if_true, vy1, vy2, vy3, vy4, vm1, vm2, vd1, vd2, vh1, vh2,
    vi1, vi2, vs1, vs2, hyv, hmov, hdv, hhv, hmiv, hscv]
  simp [hy1, hmo1, hmo, hd1, hdm, hh, hmi]
  omega

theorem parse_datetime_fmt16 (now : DT) (y mo d h mi : Nat)
    (hy1 : 1 ≤ y) (hy : y ≤ 9999) (hmo1 : 1 ≤ mo) (hmo : mo ≤ 12)
    (hd1 : 1 ≤ d) (hdm : d ≤ daysInMonth y mo) (hh : h ≤ 23) (hmi : mi ≤ 59) :
    parse_datetime (fmtYmdHm y mo d h mi) none now
      = some (if (⟨now.day, h * 3600 + mi * 60⟩ : DT).toSec ≤ now.toSec
              then ⟨now.day + 1, h * 3600 + mi * 60⟩
              else ⟨now.day, h * 3600 + mi * 60⟩) := by
  have hstrip : stripWs (fmtYmdHm y mo d h mi) = fmtYmdHm y mo d h mi := by
    apply stripWs_eq_self
    · intro c hc
      simp only [fmtYmdHm, digit4, List.cons_append, List.head?_cons, Option.some.injEq] at hc
      rw [← hc]
      exact (dChar_facts (y / 1000) (by omega)).2.2
    · intro c hc
      simp only [fmtYmdHm, digit4, digit2, List.cons_append, List.nil_append,
        List.reverse_cons, List.append_assoc, List.nil_append, List.cons_append,
        List.head?_append, List.head?_cons] at hc
      simp at hc
      rw [← hc]
      exact (dChar_facts (mi % 10) (by omega)).2.2
  have hfmt16 : (fmtYmdHm y mo d h mi).length = 16 := by
    simp [fmtYmdHm, digit4, digit2]
  have hcol : (fmtYmdHm y mo d h mi).contains ':' = true :=
    List.elem_eq_true_of_mem (by simp [fmtYmdHm, digit4, digit2])
  have hdash : (fmtYmdHm y mo d h mi).contains '-' = true :=
    List.elem_eq_true_of_mem (by simp [fmtYmdHm, digit4, digit2])
  have htf : parseTimeFields (fmtYmdHm y mo d h mi) = some (h, mi) := by
    simp only [parseTimeFields, hfmt16, hcol, hdash,
      parseYmdHm_fmt y mo d h mi hy1 hy hmo1 hmo hd1 hdm hh hmi]
    simp
  simp only [parse_datetime, hstrip, htf]
  simp [anchorResult, hh, hmi]

theorem parse_datetime_fmt19 (now : DT) (y mo d h mi sc : Nat)
    (hy1 : 1 ≤ y) (hy : y ≤ 9999) (hmo1 : 1 ≤ mo) (hmo : mo ≤ 12)
    (hd1 : 1 ≤ d) (hdm : d ≤ daysInMonth y mo) (hh : h ≤ 23) (hmi : mi ≤ 59)
    (hsc : sc ≤ 59) :
    parse_datetime (fmtYmdHms y mo d h mi sc) none now
      = some (if (⟨now.day, h * 3600 + mi * 60⟩ : DT).toSec ≤ now.toSec
              then ⟨now.day + 1, h * 3600 + mi * 60⟩
              else ⟨now.day, h * 3600 + mi * 60⟩) := by
  have hstrip : stripWs (fmtYmdHms y mo d h mi sc) = fmtYmdHms y mo d h mi sc := by
    apply stripWs_eq_self
    · intro c hc
      simp only [fmtYmdHms, digit4, List.cons_append, List.head?_cons,
        Option.some.injEq] at hc
      rw [← hc]
      exact (dChar_facts (y / 1000) (by omega)).2.2
    · intro c hc
      simp only [fmtYmdHms, digit4, digit2, List.cons_append, List.nil_append] at hc
      simp at hc
      rw [← hc]
      exact (dChar_facts (sc % 10) (by omega)).2.2
  have hfmt19 : (fmtYmdHms y mo d h mi sc).length = 19 := by
    simp [fmtYmdHms, digit4, digit2]
  have hcol : (fmtYmdHms y mo d h mi sc).contains ':' = true :=
    List.elem_eq_true_of_mem (by simp [fmtYmdHms, digit4, digit2])
  have hdash : (fmtYmdHms y mo d h mi sc).contains '-' = true :=
    List.elem_eq_true_of_mem (by simp [fmtYmdHms, digit4, digit2])
  have htf : parseTimeFields (fmtYmdHms y mo d h mi sc) = some (h, mi) := by
    simp only [parseTimeFields, hfmt19, hcol, hdash,
      parseYmdHms_fmt y mo d h mi sc hy1 hy hmo1 hmo hd1 hdm hh hmi hsc]
    simp
  simp only [parse_datetime, hstrip, htf]
  simp [anchorResult, hh, hmi]

theorem lookup_mem_snd {α β : Type} [BEq α] (l : List (α × β)) (k : α) (v : β)
    (h : l.lookup k = some v) : v ∈ l.map Prod.snd := by
  induction l with
  | nil => simp [List.lookup] at h
  | cons a t ih =>
    cases a with
    | mk k1 v1 =>
      simp only [List.lookup] at h
      rcases hba : (k == k1) with _ | _
      · rw [hba] at h
        exact List.mem_cons_of_mem _ (ih h)
      · rw [hba] at h
        injection h with h'
        exact h' ▸ List.mem_cons_self _ _

theorem weekLookup_le_six (w : Str) (t : Nat) (h : weekLookup w = some t) : t ≤ 6 := by
  have hm := lookup_mem_snd weekMap _ t h
  simp only [weekMap, List.map_cons, List.map_nil, List.mem_cons, List.not_mem_nil,
    or_false] at hm
  omega

theorem anchorResult_future (now : DT) (hnow : now.sec < 86400) (h mi : Nat)
    (week : Option Str) (r : DT) (hr : anchorResult h mi week now = some r) :
    now.toSec < r.toSec := by
  unfold anchorResult at hr
  by_cases hv : (h ≤ 23 && mi ≤ 59) = true
  · rw [if_pos hv] at hr
    simp only [Bool.and_eq_true, decide_eq_true_eq] at hv
    obtain ⟨h23, m59⟩ := hv
    cases week with
    | none =>
      injection hr with hr2
      rw [← hr2]
      split <;> rename_i hc <;> simp only [DT.toSec] at hc ⊢ <;> omega
    | some w =>
      dsimp only at hr
      by_cases hw : w = []
      · rw [if_pos hw] at hr
        injection hr with hr2
        rw [← hr2]
        split <;> rename_i hc <;> simp only [DT.toSec] at hc ⊢ <;> omega
      · rw [if_neg hw] at hr
        rcases hlk : weekLookup w with _ | target <;> rw [hlk] at hr
        · cases hr
        · have ht6 := weekLookup_le_six w target hlk
          injection hr with hr2
          rw [← hr2]
          simp only [DT.toSec]
          split <;> rename_i hC <;>
            simp only [Bool.or_eq_true, Bool.and_eq_true, decide_eq_true_eq, DT.toSec,
              not_or, not_and] at hC <;> omega
  · rw [if_neg hv] at hr
    cases hr

theorem anchorResult_week (now : DT) (hnow : now.sec < 86400) (h mi : Nat)
    (w : Str) (r : DT) (hw : w ≠ []) (hr : anchorResult h mi (some w) now = some r) :
    ∃ target, weekLookup w = some target ∧ (r.day + 2) % 7 = target ∧
      now.toSec < r.toSec ∧ r.toSec ≤ now.toSec + 7 * 86400 ∧
      r.sec = h * 3600 + mi * 60 := by
  unfold anchorResult at hr
  by_cases hv : (h ≤ 23 && mi ≤ 59) = true
  · rw [if_pos hv] at hr
    simp only [Bool.and_eq_true, decide_eq_true_eq] at hv
    obtain ⟨h23, m59⟩ := hv
    dsimp only at hr
    rw [if_neg hw] at hr
    rcases hlk : weekLookup w with _ | target <;> rw [hlk] at hr
    · cases hr
    · have ht6 := weekLookup_le_six w target hlk
      refine ⟨target, rfl, ?_⟩
      injection hr with hr2
      rw [← hr2]
      simp only [DT.toSec]
      split <;> rename_i hC <;>
        simp only [Bool.or_eq_true, Bool.and_eq_true, decide_eq_true_eq, DT.toSec,
          not_or, not_and] at hC <;>
        exact ⟨by omega, by omega, by omega, by trivial⟩
  · rw [if_neg hv] at hr
    cases hr

/-- Claim C10: `parse_datetime` (1) never returns a datetime at or before
`now`; (2) discards the explicit calendar date of a `"YYYY-MM-DD HH:MM"`
input, keeping only the hour and minute and re-anchoring them to today, or
to tomorrow when that time of day is not strictly in the future; (3) treats
the `"YYYY-MM-DD HH:MM:SS"` shape identically (seconds also discarded); and
(4) with a weekday argument anchors to the next future occurrence of that
weekday: the result has the looked-up weekday, the parsed time of day, and
lies in the half-open window `(now, now + 7 days]`. -/
theorem C10_parse_datetime_reanchors (now : DT) (hnow : now.sec < 86400) :
    (∀ s week r, parse_datetime s week now = some r → now.toSec < r.toSec)
    ∧ (∀ y mo d h mi, 1 ≤ y → y ≤ 9999 → 1 ≤ mo → mo ≤ 12 → 1 ≤ d →
        d ≤ daysInMonth y mo → h ≤ 23 → mi ≤ 59 →
        ∃ r, parse_datetime (fmtYmdHm y mo d h mi) none now = some r ∧
          r.sec = h * 3600 + mi * 60 ∧
          (h * 3600 + mi * 60 ≤ now.sec → r.day = now.day + 1) ∧
          (now.sec < h * 3600 + mi * 60 → r.day = now.day))
    ∧ (∀ y mo d h mi sc, 1 ≤ y → y ≤ 9999 → 1 ≤ mo → mo ≤ 12 → 1 ≤ d →
        d ≤ daysInMonth y mo → h ≤ 23 → mi ≤ 59 → sc ≤ 59 →
        parse_datetime (fmtYmdHms y mo d h mi sc) none now
          = parse_datetime (fmtYmdHm y mo d h mi) none now)
    ∧ (∀ s w r, parse_datetime s (some w) now = some r → w ≠ [] →
        ∃ target h mi, weekLookup w = some target ∧
          parseTimeFields (stripWs s) = some (h, mi) ∧
          r.sec = h * 3600 + mi * 60 ∧ (r.day + 2) % 7 = target ∧
          now.toSec < r.toSec ∧ r.toSec ≤ now.toSec + 7 * 86400) := by
  refine ⟨?_, ?_, ?_, ?_⟩
  · intro s week r h
    simp only [parse_datetime] at h
    rcases htf : parseTimeFields (stripWs s) with _ | ⟨hh, mm⟩ <;> rw [htf] at h
    · cases h
    · exact anchorResult_future now hnow hh mm week r h
  · intro y mo d h mi hy1 hy hmo1 hmo hd1 hdm hh hmi
    rw [parse_datetime_fmt16 now y mo d h mi hy1 hy hmo1 hmo hd1 hdm hh hmi]
    refine ⟨_, rfl, ?_, ?_, ?_⟩
    · split <;> rfl
    · intro hc
      rw [if_pos (show DT.toSec ⟨now.day, h * 3600 + mi * 60⟩ ≤ now.toSec by
        simp only [DT.toSec]; omega)]
    · intro hc
      rw [if_neg (show ¬ DT.toSec ⟨now.day, h * 3600 + mi * 60⟩ ≤ now.toSec by
        simp only [DT.toSec]; omega)]
  · intro y mo d h mi sc hy1 hy hmo1 hmo hd1 hdm hh hmi hsc
    rw [parse_datetime_fmt19 now y mo d h mi sc hy1 hy hmo1 hmo hd1 hdm hh hmi hsc,
      parse_datetime_fmt16 now y mo d h mi hy1 hy hmo1 hmo hd1 hdm hh hmi]
  · intro s w r h hw
    simp only [parse_datetime] at h
    rcases htf : parseTimeFields (stripWs s) with _ | ⟨hh, mm⟩ <;> rw [htf] at h
    · cases h
    · obtain ⟨target, hlk, hwk, hlt, hle, hsec⟩ :=
        anchorResult_week now hnow hh mm w r hw h
      exact ⟨target, hh, mm, hlk, rfl, hsec, hwk, hlt, hle⟩

theorem C10_parse_datetime_reanchors_witness :
    (⟨800000, 37815⟩ : DT).sec < 86400 ∧
      (⟨800000, 37815⟩ : DT).toSec < (⟨800001, 8 * 3600 + 20 * 60⟩ : DT).toSec :=
  ⟨by decide,
    (C10_parse_datetime_reanchors ⟨800000, 37815⟩ (by decide)).1
      (strL "0820") none ⟨800001, 8 * 3600 + 20 * 60⟩ (by decide)⟩

/-- Claim C1 counterexample: on a wechat-family platform, a friend-chat
session key with per-user isolation does not round-trip —
`get_original_session_id` returns the isolated key unchanged instead of the
raw key. -/
theorem C1_counterexample :
    get_original_session_id
        (get_session_id true (strL "gewechat:FriendMessage:wxid_abc") (some (strL "u1")))
      ≠ strL "gewechat:FriendMessage:wxid_abc" := by decide

theorem C1_session_isolation_roundtrip_witness :
    get_original_session_id
        (get_session_id true
          (strL "aiocqhttp" ++ ':' :: (strL "GroupMessage" ++ ':' :: strL "12345"))
          (some (strL "999")))
      = strL "aiocqhttp" ++ ':' :: (strL "GroupMessage" ++ ':' :: strL "12345") :=
  (C1_session_isolation_roundtrip (strL "aiocqhttp") (strL "GroupMessage")
      (strL "12345") (strL "999") (by decide) (by decide) (by decide) (by decide)
      (by decide) (by decide)).2.1 rfl (by decide) (by decide) (by decide)

/-- Claim C3: when the fetched holiday table has an override entry for the
date's short date, the entry is authoritative — `is_holiday` returns its
value, `is_workday` its negation (so `is_workday = !is_holiday` on covered
dates); without an entry both fall back to the weekday test (Mon-Fri
workday, Sat/Sun holiday). -/
theorem C3_holiday_override (table : HolidayTable) (y mo d : Nat) :
    (∀ v, table.lookup (shortDate mo d) = some v →
        is_holiday table y mo d = v ∧ is_workday table y mo d = !v ∧
        is_workday table y mo d = !(is_holiday table y mo d))
    ∧ (table.lookup (shortDate mo d) = none →
        (is_workday table y mo d = true ↔ weekdayOf y mo d < 5) ∧
        (is_holiday table y mo d = true ↔ 5 ≤ weekdayOf y mo d)) := by
  constructor
  · intro v hv
    simp only [is_holiday, is_workday, hv]
    cases v <;> simp
  · intro hv
    simp only [is_holiday, is_workday, hv]
    constructor
    · split <;> rename_i hwd <;> simp <;> omega
    · simp

theorem C3_holiday_override_witness :
    is_holiday [(strL "10-01", true)] 2026 10 1 = true ∧
      is_workday [(strL "10-01", true)] 2026 10 1 = !true ∧
      is_workday [(strL "10-01", true)] 2026 10 1
        = !(is_holiday [(strL "10-01", true)] 2026 10 1) :=
  (C3_holiday_override [(strL "10-01", true)] 2026 10 1).1 true (by decide)

/-- Claim C5: a workday-gated trigger invokes the delivery callback exactly
when the calendar reports a workday, a holiday-gated trigger exactly when it
reports a legal holiday; a gated-out occurrence produces nothing at all
(`none`): no execution, no reschedule, no counting. -/
theorem C5_gate_check (table : HolidayTable) (y mo d : Nat) (msg : Str) (r : Reminder) :
    (check_and_execute_workday table y mo d msg r = some (msg, r) ↔
      is_workday table y mo d = true)
    ∧ (is_workday table y mo d = false →
      check_and_execute_workday table y mo d msg r = none)
    ∧ (check_and_execute_holiday table y mo d msg r = some (msg, r) ↔
      is_holiday table y mo d = true)
    ∧ (is_holiday table y mo d = false →
      check_and_execute_holiday table y mo d msg r = none) := by
  unfold check_and_execute_workday check_and_execute_holiday
  refine ⟨?_, ?_, ?_, ?_⟩
  · rcases hb : is_workday table y mo d with _ | _ <;> simp [hb]
  · intro hb
    simp [hb]
  · rcases hb : is_holiday table y mo d with _ | _ <;> simp [hb]
  · intro hb
    simp [hb]

theorem C5_gate_check_witness :
    is_workday [(strL "10-01", true)] 2026 10 1 = false ∧
      check_and_execute_workday [(strL "10-01", true)] 2026 10 1 (strL "k")
        ⟨strL "t", none, none, none, none, none, none, false⟩ = none :=
  ⟨by decide,
    (C5_gate_check [(strL "10-01", true)] 2026 10 1 (strL "k")
      ⟨strL "t", none, none, none, none, none, none, false⟩).2.1 (by decide)⟩

/-- Claim C2: for every valid `(repeatKind, holidayGate)` pair, the trigger
registered by `add_job` has exactly the §4.1 shape — daily/weekly/monthly/
yearly cron triggers constrained by the anchor's fields, any other repeat
kind (including `none`) a one-shot date trigger at the anchor, and a gate
only reroutes the callback while keeping identical cron fields. -/
theorem C2_trigger_table (rt ht : Option Str) (dt : Anchor)
    (hht : falsy ht = true ∨ ht = some (strL "workday") ∨ ht = some (strL "holiday")) :
    (rt = some (strL "daily") →
      addJobTrigger rt ht dt
        = .cron ⟨dt.hour, dt.minute, none, none, none⟩ (gateFor ht))
    ∧ (rt = some (strL "weekly") →
      addJobTrigger rt ht dt
        = .cron ⟨dt.hour, dt.minute, some dt.weekday, none, none⟩ (gateFor ht))
    ∧ (rt = some (strL "monthly") →
      addJobTrigger rt ht dt
        = .cron ⟨dt.hour, dt.minute, none, some dt.day, none⟩ (gateFor ht))
    ∧ (rt = some (strL "yearly") →
      addJobTrigger rt ht dt
        = .cron ⟨dt.hour, dt.minute, none, some dt.day, some dt.month⟩ (gateFor ht))
    ∧ (rt ≠ some (strL "daily") → rt ≠ some (strL "weekly") →
        rt ≠ some (strL "monthly") → rt ≠ some (strL "yearly") →
      addJobTrigger rt ht dt = .date dt .direct) := by
  have hlast : rt ≠ some (strL "daily") → rt ≠ some (strL "weekly") →
      rt ≠ some (strL "monthly") → rt ≠ some (strL "yearly") →
      addJobTrigger rt ht dt = .date dt .direct := by
    intro h1 h2 h3 h4
    simp [addJobTrigger, h1, h2, h3, h4]
  rcases hht with hf | rfl | rfl
  · rcases ht with _ | s
    · exact ⟨fun h => by rw [h]; rfl, fun h => by rw [h]; rfl, fun h => by rw [h]; rfl,
        fun h => by rw [h]; rfl, hlast⟩
    · simp only [falsy, decide_eq_true_eq] at hf
      subst hf
      exact ⟨fun h => by rw [h]; rfl, fun h => by rw [h]; rfl, fun h => by rw [h]; rfl,
        fun h => by rw [h]; rfl, hlast⟩
  · exact ⟨fun h => by rw [h]; rfl, fun h => by rw [h]; rfl, fun h => by rw [h]; rfl,
      fun h => by rw [h]; rfl, hlast⟩
  · exact ⟨fun h => by rw [h]; rfl, fun h => by rw [h]; rfl, fun h => by rw [h]; rfl,
      fun h => by rw [h]; rfl, hlast⟩

theorem C2_trigger_table_witness :
    (falsy (some (strL "workday")) = true ∨
        (some (strL "workday") : Option Str) = some (strL "workday") ∨
        (some (strL "workday") : Option Str) = some (strL "holiday")) ∧
      addJobTrigger (some (strL "weekly")) (some (strL "workday")) ⟨2024, 3, 4, 9, 0⟩
        = .cron ⟨9, 0, some (Anchor.weekday ⟨2024, 3, 4, 9, 0⟩), none, none⟩
            (gateFor (some (strL "workday"))) :=
  ⟨Or.inr (Or.inl rfl),
    (C2_trigger_table (some (strL "weekly")) (some (strL "workday")) ⟨2024, 3, 4, 9, 0⟩
      (Or.inr (Or.inl rfl))).2.1 rfl⟩

theorem countJobs_replace (store : JobStore) (id : Str) (tr : Trigger) :
    countJobs (schedAddJobReplace store id tr) id = 1 := by
  simp only [countJobs, schedAddJobReplace]
  rw [List.filter_cons_of_pos (by simp)]
  simp only [List.length_cons]
  have hnil : (store.filter (fun jt => jt.1 ≠ id)).filter (fun jt => jt.1 = id) = [] := by
    induction store with
    | nil => rfl
    | cons a t ih =>
      by_cases h : a.1 = id <;> simp [List.filter_cons, h, ih]
  rw [hnil]
  rfl

/-- Claim C4: scheduling the same logical record twice — identical session
key, text and `date_time` — yields exactly one live trigger: the job id is a
deterministic function of that tuple, registration replaces an existing job
with the same id, and a `ConflictingIdError` during registration is reported
to the caller as success. -/
theorem C4_schedule_idempotent (md5 : Str → Str) (store : JobStore) (msg : Str)
    (r r2 : Reminder) (dt dt2 : Anchor) :
    (add_job md5 store msg r dt .ok).2 = true
    ∧ (add_job md5 (add_job md5 store msg r dt .ok).1 msg r dt2 .ok).2 = true
    ∧ countJobs (add_job md5 (add_job md5 store msg r dt .ok).1 msg r dt2 .ok).1
        (jobId md5 msg r) = 1
    ∧ (r2.text = r.text → r2.date_time = r.date_time →
        jobId md5 msg r2 = jobId md5 msg r)
    ∧ (add_job md5 store msg r dt .conflict).2 = true := by
  refine ⟨rfl, rfl, ?_, ?_, rfl⟩
  · exact countJobs_replace _ _ _
  · intro ht hd
    simp only [jobId, strOfOpt, ht, hd]

theorem C4_schedule_idempotent_witness :
    countJobs
        (add_job (fun s => s) (add_job (fun s => s) [] (strL "k")
            ⟨strL "t", some (strL "2026-01-01 08:00"), none, some (strL "daily"),
              none, none, none, false⟩ ⟨2026, 1, 1, 8, 0⟩ .ok).1 (strL "k")
          ⟨strL "t", some (strL "2026-01-01 08:00"), none, some (strL "daily"),
            none, none, none, false⟩ ⟨2026, 1, 1, 8, 0⟩ .ok).1
        (jobId (fun s => s) (strL "k")
          ⟨strL "t", some (strL "2026-01-01 08:00"), none, some (strL "daily"),
            none, none, none, false⟩) = 1 :=
  (C4_schedule_idempotent (fun s => s) [] (strL "k")
    ⟨strL "t", some (strL "2026-01-01 08:00"), none, some (strL "daily"),
      none, none, none, false⟩
    ⟨strL "t", some (strL "2026-01-01 08:00"), none, some (strL "daily"),
      none, none, none, false⟩ ⟨2026, 1, 1, 8, 0⟩ ⟨2026, 1, 1, 8, 0⟩).2.2.1

/-- Claim C6 (amended): during startup scheduling, a record whose repeat
kind is `"none"`, or contains none of the keywords
daily/weekly/monthly/yearly/none as a substring, and whose `date_time` is
already past, is skipped entirely (no trigger registered); records with one
of the four recurring kinds are scheduled regardless of a past anchor. -/
theorem C6_startup_skip (r : Reminder) (now : DT) :
    ((r.repeat_type = some (strL "none") ∨
        (repeatKeywords.any fun k => containsSeq k (r.repeat_type.getD [])) = false) →
      is_outdated r now = true → initDecision r now = none)
    ∧ (∀ ds dta, r.date_time = some ds → parse_datetime ds none now = some dta →
        (r.repeat_type = some (strL "daily") ∨ r.repeat_type = some (strL "weekly") ∨
          r.repeat_type = some (strL "monthly") ∨ r.repeat_type = some (strL "yearly")) →
        initDecision r now
          = some (addJobTrigger r.repeat_type r.holiday_type (anchorOfDT dta))) := by
  constructor
  · intro hskip hout
    unfold initDecision
    rcases hdt : r.date_time with _ | ds
    · rfl
    · dsimp only
      rcases hp : parse_datetime ds none now with _ | dta
      · rfl
      · have hc1 : (decide (r.repeat_type = some (strL "none")) ||
            !(repeatKeywords.any fun k => containsSeq k (r.repeat_type.getD []))) = true := by
          rcases hskip with h | h
          · simp [h]
          · simp [h]
        dsimp only
        rw [if_pos (by rw [Bool.and_eq_true]; exact ⟨hc1, hout⟩)]
  · intro ds dta hdt hp hrt
    unfold initDecision
    rw [hdt]
    dsimp only
    rw [hp]
    dsimp only
    rcases hrt with h | h | h | h <;> rw [h] <;>
      rw [if_neg (by
        rw [Bool.and_eq_true]
        rintro ⟨hl, -⟩
        exact absurd hl (by decide))]

/-- Claim C6 counterexample: the repeat kind `"nonex"` is not one of the
five recognized kinds, yet because the skip test uses substring containment
(`"none" in "nonex"`), an outdated record with this kind is scheduled (a
trigger is registered) instead of skipped. -/
theorem C6_counterexample :
    is_outdated ⟨strL "t", some (strL "2020-01-01 08:00"), none, some (strL "nonex"),
        none, none, none, false⟩ ⟨daysFromCivil 2026 10 12, 37815⟩ = true ∧
      (∀ k, k ∈ [strL "daily", strL "weekly", strL "monthly", strL "yearly", strL "none"] →
        strL "nonex" ≠ k) ∧
      initDecision ⟨strL "t", some (strL "2020-01-01 08:00"), none, some (strL "nonex"),
        none, none, none, false⟩ ⟨daysFromCivil 2026 10 12, 37815⟩ ≠ none := by decide

theorem C6_startup_skip_witness :
    initDecision ⟨strL "t", some (strL "2020-01-01 08:00"), none, some (strL "none"),
        none, none, none, false⟩ ⟨daysFromCivil 2026 10 12, 37815⟩ = none :=
  (C6_startup_skip ⟨strL "t", some (strL "2020-01-01 08:00"), none, some (strL "none"),
      none, none, none, false⟩ ⟨daysFromCivil 2026 10 12, 37815⟩).1
    (Or.inl rfl) (by decide)

/-- Claim C7 (amended): on the flat-file backend, save prunes exactly the
records with a missing/empty `date_time` or an expired one-shot kind, drops
emptied session keys, and preserves every surviving record field-for-field
(a subsequent load returns the written store).  The relational backend's
save inserts every record with a parseable `date_time` unchanged — it
performs no expiry pruning. -/
theorem C7_save_prune (store : Store) (now : DT) :
    (∀ p, p ∈ async_save_reminder_data store now → p.2 ≠ [])
    ∧ (∀ rs (q : Reminder), q ∈ savePruneGroup rs now ↔
        q ∈ rs ∧ (∃ ds, q.date_time = some ds ∧ ds ≠ []) ∧
          ¬(is_one_time q = true ∧ is_outdated q now = true))
    ∧ (∀ p, p ∈ async_save_reminder_data store now → ∀ q, q ∈ p.2 →
        (∃ ds, q.date_time = some ds ∧ ds ≠ []) ∧
          ¬(is_one_time q = true ∧ is_outdated q now = true))
    ∧ (∀ key rs, (key, rs) ∈ store → savePruneGroup rs now ≠ [] →
        (key, savePruneGroup rs now) ∈ async_save_reminder_data store now)
    ∧ (∀ key rs (q : Reminder), (key, rs) ∈ store → q ∈ rs →
        ∀ ds, q.date_time = some ds → ds ≠ [] → (parseYmdHm ds).isSome = true →
        (key, q) ∈ postgres_save_rows store) := by
  have hchar : ∀ rs (q : Reminder), q ∈ savePruneGroup rs now ↔
      q ∈ rs ∧ (∃ ds, q.date_time = some ds ∧ ds ≠ []) ∧
        ¬(is_one_time q = true ∧ is_outdated q now = true) := by
    intro rs q
    simp only [savePruneGroup, List.mem_filter, Bool.and_eq_true, Bool.not_eq_true',
      Bool.and_eq_false_iff]
    constructor
    · rintro ⟨hq, hmatch, hexp⟩
      refine ⟨hq, ?_, ?_⟩
      · rcases hds : q.date_time with _ | ds
        · rw [hds] at hmatch; cases hmatch
        · rw [hds] at hmatch
          simp only [decide_eq_true_eq] at hmatch
          exact ⟨ds, rfl, hmatch⟩
      · rintro ⟨h1, h2⟩
        rcases hexp with h | h
        · rw [h1] at h; cases h
        · rw [h2] at h; cases h
    · rintro ⟨hq, ⟨ds, hds, hne⟩, hexp⟩
      refine ⟨hq, ?_, ?_⟩
      · rw [hds]
        simpa using hne
      · rcases h1 : is_one_time q with _ | _
        · exact Or.inl rfl
        · rcases h2 : is_outdated q now with _ | _
          · exact Or.inr rfl
          · exact absurd ⟨h1, h2⟩ hexp
  refine ⟨?_, hchar, ?_, ?_, ?_⟩
  · intro p hp
    simp only [async_save_reminder_data, List.mem_filter] at hp
    simpa using hp.2
  · intro p hp q hq
    simp only [async_save_reminder_data, List.mem_filter, List.mem_map] at hp
    obtain ⟨⟨kv, hkv, hpe⟩, -⟩ := hp
    rw [← hpe] at hq
    exact ((hchar kv.2 q).1 hq).2
  · intro key rs hmem hne
    simp only [async_save_reminder_data, List.mem_filter, List.mem_map]
    exact ⟨⟨(key, rs), hmem, rfl⟩, by simpa using hne⟩
  · intro key rs q hmem hq ds hds hdsne hparse
    simp only [postgres_save_rows, List.mem_flatten, List.mem_map]
    refine ⟨_, ⟨(key, rs), hmem, rfl⟩, ?_⟩
    simp only [List.mem_map, List.mem_filter]
    refine ⟨q, ⟨hq, ?_⟩, rfl⟩
    rw [hds]
    simp [hdsne, hparse]

/-- Claim C7 counterexample: an expired one-shot record (repeat kind
`"none"`, `date_time` in the past) is still among the rows the relational
backend's save inserts — the claimed pruning does not happen on that
backend. -/
theorem C7_counterexample :
    is_one_time ⟨strL "t", some (strL "2020-01-01 08:00"), none, some (strL "none"),
        none, none, none, false⟩ = true ∧
      is_outdated ⟨strL "t", some (strL "2020-01-01 08:00"), none, some (strL "none"),
        none, none, none, false⟩ ⟨daysFromCivil 2026 10 12, 37815⟩ = true ∧
      (strL "k", (⟨strL "t", some (strL "2020-01-01 08:00"), none, some (strL "none"),
        none, none, none, false⟩ : Reminder)) ∈
        postgres_save_rows [(strL "k",
          [⟨strL "t", some (strL "2020-01-01 08:00"), none, some (strL "none"),
            none, none, none, false⟩])] := by decide

theorem C7_save_prune_witness :
    ((⟨strL "t", some (strL "2099-01-01 08:00"), none, some (strL "none"),
        none, none, none, false⟩ : Reminder) ∈
      savePruneGroup
        [⟨strL "t", some (strL "2099-01-01 08:00"), none, some (strL "none"),
          none, none, none, false⟩,
         ⟨strL "old", some (strL "2020-01-01 08:00"), none, some (strL "none"),
          none, none, none, false⟩] ⟨daysFromCivil 2026 10 12, 37815⟩) ∧
    ¬ ((⟨strL "old", some (strL "2020-01-01 08:00"), none, some (strL "none"),
        none, none, none, false⟩ : Reminder) ∈
      savePruneGroup
        [⟨strL "t", some (strL "2099-01-01 08:00"), none, some (strL "none"),
          none, none, none, false⟩,
         ⟨strL "old", some (strL "2020-01-01 08:00"), none, some (strL "none"),
          none, none, none, false⟩] ⟨daysFromCivil 2026 10 12, 37815⟩) := by
  constructor
  · exact ((C7_save_prune [] ⟨daysFromCivil 2026 10 12, 37815⟩).2.1 _ _).2
      ⟨by decide, ⟨strL "2099-01-01 08:00", rfl, by decide⟩, by
        rintro ⟨-, h2⟩
        exact absurd h2 (by decide)⟩
  · intro hmem
    have := ((C7_save_prune [] ⟨daysFromCivil 2026 10 12, 37815⟩).2.1 _ _).1 hmem
    exact this.2.2 ⟨by decide, by decide⟩

/-- Claim C8 (amended): when the initial delivery send fails, the error is
caught inside the callback (the trigger's future recurrences are
unaffected), a single immediate resend is attempted, and the store is left
untouched — in particular a one-shot record is NOT removed and nothing is
persisted.  Only when the initial send succeeds is a one-shot record removed
from the store and the store persisted. -/
theorem C8_delivery_failure (store : Store) (key : Str) (r : Reminder) :
    ((reminder_callback_deliver store key r false).store = store
      ∧ (reminder_callback_deliver store key r false).persisted = false
      ∧ (reminder_callback_deliver store key r false).removedOne = false
      ∧ (reminder_callback_deliver store key r false).resendAttempted = true)
    ∧ ((r.repeat_type = some (strL "不重复") ∨ r.repeat_type = some (strL "none")) →
        (store.lookup key).isSome = true →
        (reminder_callback_deliver store key r true).removedOne = true
        ∧ (reminder_callback_deliver store key r true).persisted = true
        ∧ ∀ rs, (key, rs) ∈ (reminder_callback_deliver store key r true).store →
            r ∉ rs) := by
  refine ⟨⟨rfl, rfl, rfl, rfl⟩, ?_⟩
  intro hrt hlk
  have hb : (decide (r.repeat_type = some (strL "不重复")) ||
      decide (r.repeat_type = some (strL "none"))) = true := by
    rcases hrt with h | h <;> simp [h]
  have hrbranch : reminder_callback_deliver store key r true
      = ⟨store.map fun kv => if kv.1 = key then (kv.1, removeFired kv.2 r) else kv,
          true, true, false⟩ := by
    unfold reminder_callback_deliver
    rw [if_pos rfl, if_pos hb, if_pos hlk]
  have hnot : ∀ rs0 : List Reminder, r ∉ removeFired rs0 r := by
    intro rs0 hmem0
    have hcond := (List.mem_filter.1 hmem0).2
    rcases hrt with h | h <;> simp [h] at hcond
  refine ⟨by rw [hrbranch], by rw [hrbranch], ?_⟩
  intro rs hmem
  rw [hrbranch] at hmem
  simp only [List.mem_map] at hmem
  obtain ⟨kv, hkv, heq⟩ := hmem
  by_cases hk : kv.1 = key
  · rw [if_pos hk] at heq
    have hrs : rs = removeFired kv.2 r := by
      have := congrArg Prod.snd heq
      simpa using this.symm
    rw [hrs]
    exact hnot kv.2
  · rw [if_neg hk] at heq
    exact absurd (by rw [heq]) hk

/-- Claim C8 counterexample: with a failed initial send, a one-shot record
is NOT removed from the store (the deletion block only runs after a
successful send), contradicting the claim that the record is nonetheless
removed and persisted. -/
theorem C8_counterexample :
    (reminder_callback_deliver
        [(strL "k", [⟨strL "t", some (strL "2026-01-01 08:00"), none,
          some (strL "none"), none, none, none, false⟩])]
        (strL "k")
        ⟨strL "t", some (strL "2026-01-01 08:00"), none, some (strL "none"),
          none, none, none, false⟩ false).removedOne = false ∧
      (reminder_callback_deliver
        [(strL "k", [⟨strL "t", some (strL "2026-01-01 08:00"), none,
          some (strL "none"), none, none, none, false⟩])]
        (strL "k")
        ⟨strL "t", some (strL "2026-01-01 08:00"), none, some (strL "none"),
          none, none, none, false⟩ false).persisted = false ∧
      (strL "k", [(⟨strL "t", some (strL "2026-01-01 08:00"), none,
          some (strL "none"), none, none, none, false⟩ : Reminder)]) ∈
        (reminder_callback_deliver
          [(strL "k", [⟨strL "t", some (strL "2026-01-01 08:00"), none,
            some (strL "none"), none, none, none, false⟩])]
          (strL "k")
          ⟨strL "t", some (strL "2026-01-01 08:00"), none, some (strL "none"),
            none, none, none, false⟩ false).store := by decide

theorem C8_delivery_failure_witness :
    ((some (strL "none") : Option Str) = some (strL "不重复") ∨
        (some (strL "none") : Option Str) = some (strL "none")) ∧
      (([(strL "k", [(⟨strL "t", some (strL "2026-01-01 08:00"), none,
          some (strL "none"), none, none, none, false⟩ : Reminder)])] : Store).lookup
        (strL "k")).isSome = true ∧
      (reminder_callback_deliver
        [(strL "k", [⟨strL "t", some (strL "2026-01-01 08:00"), none,
          some (strL "none"), none, none, none, false⟩])]
        (strL "k")
        ⟨strL "t", some (strL "2026-01-01 08:00"), none, some (strL "none"),
          none, none, none, false⟩ true).removedOne = true :=
  ⟨Or.inr rfl, by decide,
    ((C8_delivery_failure
      [(strL "k", [⟨strL "t", some (strL "2026-01-01 08:00"), none,
        some (strL "none"), none, none, none, false⟩])]
      (strL "k")
      ⟨strL "t", some (strL "2026-01-01 08:00"), none, some (strL "none"),
        none, none, none, false⟩).2 (Or.inr rfl) (by decide)).1⟩

/-- Claim C9: for every corrupt (unparseable) flat-file store, load does not
raise (the embedded function is total — every Python exception path is
caught): it returns an empty store, moves the corrupt content to the backup
file, and writes a fresh empty store to the data file. -/
theorem C9_corrupt_load (parse : Str → Option JsonVal) (content : Str)
    (hne : content ≠ []) (hnw : stripWs content ≠ [])
    (hparse : parse (stripWs content) = none) :
    (load_json_data parse (some content)).store = []
    ∧ (load_json_data parse (some content)).dataFile = emptyJson
    ∧ (load_json_data parse (some content)).backupFile = some content := by
  unfold load_json_data
  dsimp only
  rw [if_neg hne, if_neg hnw, hparse]
  exact ⟨rfl, rfl, rfl⟩

theorem C9_corrupt_load_witness :
    ((strL "xy" : Str) ≠ [] ∧ stripWs (strL "xy") ≠ []) ∧
      (load_json_data (fun _ => none) (some (strL "xy"))).store = []
      ∧ (load_json_data (fun _ => none) (some (strL "xy"))).dataFile = emptyJson
      ∧ (load_json_data (fun _ => none) (some (strL "xy"))).backupFile
          = some (strL "xy") :=
  ⟨⟨by decide, by decide⟩,
    C9_corrupt_load (fun _ => none) (strL "xy") (by decide) (by decide) rfl⟩
